import Mathlib

/-!
Verification of the bloggen-cli core algorithms.

This file embeds, as executable Lean definitions, the deterministic text
processing algorithms of the repository:

* the SEO analysis and scoring engine (`src/seo-optimizer.js`):
  word counting, keyword counting and density, heading structure,
  readability, suggestions, SEO score and grade;
* the instruction constraint parser (`src/gemini-workflow-parser.js`):
  length-constraint extraction, fallback workflow synthesis, the
  instruction cache, the per-model failure tracker and the
  multi-model parse loop with JSON recovery;
* the content generator post-processing (`src/content-generator.js`):
  word-limit trimming;
* the file manager's filename generation, listing and cleanup
  (`src/file-manager.js`).

JavaScript strings are embedded as `List Char` / `String`; JavaScript
numbers appearing in this code are embedded as `ℕ`, `ℤ` or `ℚ` (all the
arithmetic performed by the embedded code is exact in double precision,
except where a comment notes the analysis); `null` is embedded as
`Option.none` and `NaN` as a distinguished value `JsNum.nan`.

Theorems about the claims C1 .. C10 are at the end of the file.
-/

set_option maxRecDepth 100000

/-! ## JavaScript string primitives -/

/-- Characters matched by the regex class `\s` (ASCII range, which is all
the repository's inputs use). -/
def isWsChar (c : Char) : Bool :=
  c = ' ' || c = '\t' || c = '\n' || c = '\r' || c = '\x0b' || c = '\x0c'

/-- Characters matched by the regex class `\d`. -/
def isDigitChar (c : Char) : Bool :=
  '0' ≤ c && c ≤ '9'

/-- Characters matched by the regex class `\w` (for `\b` boundaries). -/
def isWordChar (c : Char) : Bool :=
  ('a' ≤ c && c ≤ 'z') || ('A' ≤ c && c ≤ 'Z') || isDigitChar c || c = '_'

/-- Sentence-ending characters, the regex class `[.!?]`. -/
def isSentEndChar (c : Char) : Bool :=
  c = '.' || c = '!' || c = '?'

/-- ASCII lower-casing of one character, as `String.prototype.toLowerCase`
acts on the ASCII range. -/
def jsToLowerChar (c : Char) : Char :=
  if 'A' ≤ c && c ≤ 'Z' then Char.ofNat (c.toNat + 32) else c

/-- `text.toLowerCase()` on a character list. -/
def jsToLower (l : List Char) : List Char := l.map jsToLowerChar

/-- `text.trim()`: strip leading and trailing whitespace. -/
def jsTrim (l : List Char) : List Char :=
  ((l.dropWhile isWsChar).reverse.dropWhile isWsChar).reverse

/-- Worker for `jsSplitRun`: `inSep` records whether we are inside a
separator run, `acc` holds the current piece reversed. -/
def jsSplitRunAux (p : Char → Bool) : Bool → List Char → List Char → List (List Char)
  | _, acc, [] => [acc.reverse]
  | inSep, acc, c :: rest =>
    if p c then
      if inSep then jsSplitRunAux p true acc rest
      else acc.reverse :: jsSplitRunAux p true [] rest
    else jsSplitRunAux p false (c :: acc) rest

/-- `text.split(regex)` where the regex is a character class followed by
`+` (such as `/\s+/` or `/[.!?]+/`): maximal runs of separator characters
split the string, and an empty piece appears at an end of the string that
begins or ends with a separator (so `" a ".split(/\s+/)` is
`["", "a", ""]` and `"".split(/\s+/)` is `[""]`), exactly as in
JavaScript. -/
def jsSplitRun (p : Char → Bool) (l : List Char) : List (List Char) :=
  jsSplitRunAux p false [] l

/-- Worker for `jsSplitChar`. -/
def jsSplitCharAux (sep : Char) : List Char → List Char → List (List Char)
  | acc, [] => [acc.reverse]
  | acc, c :: rest =>
    if c = sep then acc.reverse :: jsSplitCharAux sep [] rest
    else jsSplitCharAux sep (c :: acc) rest

/-- `text.split(s)` for a one-character literal separator `s` (used for
`split("\n")` and `split(" ")`); unlike the regex split, runs are not
collapsed, so `"a\n\nb".split("\n")` is `["a", "", "b"]`. -/
def jsSplitChar (sep : Char) (l : List Char) : List (List Char) :=
  jsSplitCharAux sep [] l

/-- Worker for `jsSplitPara`. -/
def jsSplitParaAux : List Char → List Char → List (List Char)
  | acc, '\n' :: '\n' :: rest => acc.reverse :: jsSplitParaAux [] rest
  | acc, c :: rest => jsSplitParaAux (c :: acc) rest
  | acc, [] => [acc.reverse]

/-- `text.split("\n\n")`: split on the literal two-character separator,
leftmost and non-overlapping as in JavaScript. -/
def jsSplitPara (l : List Char) : List (List Char) :=
  jsSplitParaAux [] l

/-- `a.startsWith(b)` restated on lists: the first list is the candidate
prefix. -/
def startsWithL : List Char → List Char → Bool
  | [], _ => true
  | _, [] => false
  | a :: as, b :: bs => a == b && startsWithL as bs

/-- `a.endsWith(b)`: `suffix` is the candidate suffix of `l`. -/
def endsWithL (suffix l : List Char) : Bool :=
  startsWithL suffix.reverse l.reverse

/-- `text.includes(needle)`: substring containment. -/
def containsSub (needle : List Char) : List Char → Bool
  | [] => startsWithL needle []
  | c :: rest => startsWithL needle (c :: rest) || containsSub needle rest

/-- `Array.prototype.join(sep)` on character lists. -/
def listJoinSep (sep : List Char) : List (List Char) → List Char
  | [] => []
  | [x] => x
  | x :: y :: rest => x ++ sep ++ listJoinSep sep (y :: rest)

/-- Index of the last occurrence of `c`, or `none`. -/
def lastIdxAux (c : Char) : List Char → Option Nat
  | [] => none
  | x :: xs =>
    match lastIdxAux c xs with
    | some j => some (j + 1)
    | none => if x = c then some 0 else none

/-- `text.lastIndexOf(c)`: the index of the last occurrence of the
character, `-1` when absent. -/
def jsLastIndexOfChar (c : Char) (l : List Char) : Int :=
  match lastIdxAux c l with
  | some i => (i : Int)
  | none => -1

/-- Tail-recursive list length, used to compute the fuel of the fuelled
workers (the accumulator style keeps kernel evaluation iterative on long
texts). -/
def listLenAux {α : Type} : Nat → List α → Nat
  | n, [] => n
  | n, _ :: rest =>
    match n + 1 with
    | 0 => 0
    | Nat.succ m => listLenAux (m + 1) rest

/-- Length via `listLenAux`. -/
def listLen {α : Type} (l : List α) : Nat := listLenAux 0 l

theorem listLenAux_eq {α : Type} : ∀ (l : List α) (n : Nat), listLenAux n l = n + l.length := by
  intro l
  induction l with
  | nil => intro n; simp [listLenAux]
  | cons x xs ih =>
    intro n
    simp only [listLenAux, ih, List.length_cons]
    omega

theorem listLen_eq {α : Type} (l : List α) : listLen l = l.length := by
  simp [listLen, listLenAux_eq]

/-- Fuelled worker for `countOcc`; the fuel is the length of the text, and
each step consumes at least one character. -/
def countOccAux (needle : List Char) : Nat → List Char → Nat
  | 0, _ => 0
  | _ + 1, [] => 0
  | fuel + 1, c :: rest =>
    if startsWithL needle (c :: rest) then
      1 + countOccAux needle fuel (List.drop (needle.length - 1) rest)
    else
      countOccAux needle fuel rest

/-- `(text.match(new RegExp(needle, "g")) || []).length` for a needle with
no regex metacharacters: the number of leftmost, non-overlapping
occurrences of `needle` in `l` (the needle is assumed non-empty). -/
def countOcc (needle l : List Char) : Nat :=
  countOccAux needle (listLen l) l

/-- Value of a digit list read in base 10. -/
def digitsToNat (l : List Char) : Nat :=
  l.foldl (fun acc c => acc * 10 + (c.toNat - '0'.toNat)) 0

/-- A JavaScript number that is either `NaN` or an integer (the only
number shapes this codebase produces in the modelled paths). -/
inductive JsNum where
  | nan
  | num (n : Int)
  deriving DecidableEq, Repr

/-- `parseInt(s)`: skip leading whitespace, read an optional sign and a
run of decimal digits; `NaN` if no digit follows.  (The hexadecimal `0x`
form of `parseInt` is not modelled: every string this code passes to
`parseInt` begins with a letter of the matched pattern, or with `~`/`±`,
after whitespace skipping, so the hex branch is unreachable here.) -/
def jsParseInt (l : List Char) : JsNum :=
  let t := l.dropWhile isWsChar
  let signed : Bool × List Char :=
    match t with
    | '-' :: rest => (true, rest)
    | '+' :: rest => (false, rest)
    | _ => (false, t)
  let digits := signed.2.takeWhile isDigitChar
  if digits.isEmpty then JsNum.nan
  else if signed.1 then JsNum.num (-(digitsToNat digits : Int))
  else JsNum.num (digitsToNat digits : Int)

/-- `Math.round(q)` for a finite value: the floor of `q + 1/2` (JavaScript
rounds halves toward positive infinity). -/
def jsRound (q : ℚ) : ℤ := ⌊q + 1/2⌋

/-- `q.toFixed(1)` for a non-negative rational: render with one decimal
digit, rounding halves up. -/
def jsToFixed1 (q : ℚ) : String :=
  let n : ℕ := (jsRound (q * 10)).toNat
  toString (n / 10) ++ "." ++ toString (n % 10)

/-! ## SEO optimizer (`src/seo-optimizer.js`)

Embedding of the `SEOOptimizer` class.  The constructor configuration is
fixed in the source: `targetKeywordDensity = {min: 1, max: 3}`,
`optimalWordCount = {min: 1200, max: 1800}`; `websiteUrl` is a
constructor argument and is passed explicitly to the functions that
use it. -/

namespace SEO

/-- `getWordCount(content)`: split on `/\s+/`, drop empty tokens, count. -/
def getWordCount (content : String) : Nat :=
  ((jsSplitRun isWsChar content.data).filter (fun w => w.length > 0)).length

/-- `countKeywordSimple(content, keyword)`: split the content on
whitespace and count the tokens that contain the keyword as a
substring. -/
def countKeywordSimple (content keyword : List Char) : Nat :=
  ((jsSplitRun isWsChar content).filter (fun w => containsSub keyword w)).length

/-- One entry of the related-keyword report. -/
structure RelatedKeyword where
  keyword : String
  count : Nat
  density : ℚ
  deriving DecidableEq, Repr

/-- The `primary` part of the keyword analysis. -/
structure PrimaryKeyword where
  keyword : String
  count : Nat
  density : ℚ
  optimal : Bool
  deriving DecidableEq, Repr

/-- Result shape of `analyzeKeywords`. -/
structure KeywordAnalysis where
  primary : PrimaryKeyword
  related : List RelatedKeyword
  totalUniqueKeywords : Nat
  deriving DecidableEq, Repr

/-- Insert one entry into a list sorted by descending count, behind
entries with a count at least as large (stability of ES2019
`Array.prototype.sort`). -/
def insertByCountDesc (x : RelatedKeyword) : List RelatedKeyword → List RelatedKeyword
  | [] => [x]
  | y :: ys => if x.count > y.count then x :: y :: ys else y :: insertByCountDesc x ys

/-- `related.sort((a, b) => b.count - a.count)`: stable descending sort
by count. -/
def sortByCountDesc : List RelatedKeyword → List RelatedKeyword
  | [] => []
  | x :: xs => insertByCountDesc x (sortByCountDesc xs)

/-- The fixed `itKeywords` list from `analyzeKeywords`. -/
def itKeywords : List String :=
  ["developer", "programming", "software", "tech", "engineer",
   "javascript", "python", "java", "react", "node",
   "remote", "salary", "career", "job", "skills"]

/-- `analyzeKeywords(content, primaryKeyword)`.  Both the content and the
keyword are lower-cased before counting; the density is
`100 * matches / totalWords` with a zero guard; `optimal` means the
density lies in the configured `[1, 3]` band. -/
def analyzeKeywords (content primaryKeyword : String) : KeywordAnalysis :=
  let contentLower := jsToLower content.data
  let totalWords := ((jsSplitRun isWsChar contentLower).filter (fun w => w.length > 0)).length
  let primaryMatches := countKeywordSimple contentLower (jsToLower primaryKeyword.data)
  let primaryDensity : ℚ :=
    if totalWords > 0 then ((primaryMatches : ℚ) / (totalWords : ℚ)) * 100 else 0
  let relatedKeywords :=
    sortByCountDesc
      (((itKeywords.map (fun k =>
          let c := countKeywordSimple contentLower k.data
          RelatedKeyword.mk k c
            (if totalWords > 0 then ((c : ℚ) / (totalWords : ℚ)) * 100 else 0))).filter
        (fun k => k.count > 0)))
  { primary :=
      { keyword := primaryKeyword
        count := primaryMatches
        density := primaryDensity
        optimal := decide (1 ≤ primaryDensity) && decide (primaryDensity ≤ 3) }
    related := relatedKeywords.take 10
    totalUniqueKeywords := relatedKeywords.length }

/-- Result shape of `analyzeHeadingStructure`; the source field `ratio`
is embedded under the name `ratioVal`. -/
structure HeadingStructure where
  h1 : Nat
  h2 : Nat
  h3 : Nat
  h4 : Nat
  total : Nat
  properStructure : Bool
  ratioVal : ℚ
  deriving DecidableEq, Repr

/-- `analyzeHeadingStructure(content)`: the lines are obtained by
`content.split("\n")` and each heading level counts the lines whose raw
(untrimmed) prefix is `"# "`, `"## "`, `"### "`, `"#### "`
respectively; `properStructure` requires exactly one H1 and at least
two H2s. -/
def analyzeHeadingStructure (content : String) : HeadingStructure :=
  let lines := jsSplitChar '\n' content.data
  let h1 := (lines.filter (fun line => startsWithL ('#' :: [' ']) line)).length
  let h2 := (lines.filter (fun line => startsWithL ('#' :: '#' :: [' ']) line)).length
  let h3 := (lines.filter (fun line => startsWithL ('#' :: '#' :: '#' :: [' ']) line)).length
  let h4 := (lines.filter (fun line => startsWithL ('#' :: '#' :: '#' :: '#' :: [' ']) line)).length
  let totalHeadings := h1 + h2 + h3 + h4
  { h1 := h1, h2 := h2, h3 := h3, h4 := h4
    total := totalHeadings
    properStructure := h1 == 1 && h2 ≥ 2
    ratioVal := (totalHeadings : ℚ) / (max 1 (getWordCount content / 300) : ℕ) }

/-- `getReadabilityGrade(score)`: fixed thresholds 80/70/60/50. -/
def getReadabilityGrade (score : ℚ) : String :=
  if score ≥ 80 then "Excellent"
  else if score ≥ 70 then "Good"
  else if score ≥ 60 then "Fair"
  else if score ≥ 50 then "Difficult"
  else "Very Difficult"

/-- Result shape of `analyzeReadability`. -/
structure Readability where
  sentences : Nat
  avgWordsPerSentence : ℚ
  complexWordsPercentage : ℚ
  readabilityScore : ℤ
  grade : String
  deriving DecidableEq, Repr

/-- `analyzeReadability(content)`: sentences are the non-blank pieces of
`content.split(/[.!?]+/)`; words are the non-empty pieces of
`content.split(/\s+/)`; a word of length at least 7 is complex; the raw
score is `max(0, 100 - avgWordsPerSentence - complexWordsPct)`; the
stored fields round as in the source (the stored score is
`Math.round`ed, while the grade is computed from the unrounded
score). -/
def analyzeReadability (content : String) : Readability :=
  let sentences :=
    (jsSplitRun isSentEndChar content.data).filter (fun s => (jsTrim s).length > 0)
  let words := (jsSplitRun isWsChar content.data).filter (fun w => w.length > 0)
  let avgRaw : ℚ :=
    if sentences.length > 0 then (words.length : ℚ) / (sentences.length : ℚ) else 0
  let complexWords := (words.filter (fun w => w.length ≥ 7)).length
  let pctRaw : ℚ :=
    if words.length > 0 then ((complexWords : ℚ) / (words.length : ℚ)) * 100 else 0
  let scoreRaw : ℚ := max 0 (100 - avgRaw - pctRaw)
  { sentences := sentences.length
    avgWordsPerSentence := (jsRound (avgRaw * 10) : ℚ) / 10
    complexWordsPercentage := (jsRound (pctRaw * 10) : ℚ) / 10
    readabilityScore := jsRound scoreRaw
    grade := getReadabilityGrade scoreRaw }

/-- Pattern prefix check for `new RegExp(url, "g")`: a `.` in the url is
the regex wildcard (matching anything but a line terminator), all other
url characters are literal. -/
def regexDotPrefix : List Char → List Char → Bool
  | [], _ => true
  | _ :: _, [] => false
  | p :: ps, c :: cs =>
    (if p = '.' then !(c = '\n' || c = '\r') else p == c) && regexDotPrefix ps cs

/-- Fuelled worker for `countOccRegexDot`. -/
def countOccRegexDotAux (pat : List Char) : Nat → List Char → Nat
  | 0, _ => 0
  | _ + 1, [] => 0
  | fuel + 1, c :: rest =>
    if regexDotPrefix pat (c :: rest) then
      1 + countOccRegexDotAux pat fuel (List.drop (pat.length - 1) rest)
    else
      countOccRegexDotAux pat fuel rest

/-- `(content.match(new RegExp(url, "g")) || []).length`: leftmost
non-overlapping match count, with `.` as wildcard. -/
def countOccRegexDot (pat l : List Char) : Nat :=
  countOccRegexDotAux pat (listLen l) l

/-- Result shape of `analyzeInternalLinks`. -/
structure InternalLinks where
  count : Nat
  optimal : Bool
  links : List String
  deriving DecidableEq, Repr

/-- `analyzeInternalLinks(content)` for a given `websiteUrl`. -/
def analyzeInternalLinks (websiteUrl content : String) : InternalLinks :=
  let linkCount := countOccRegexDot websiteUrl.data content.data
  { count := linkCount
    optimal := linkCount ≥ 1 && linkCount ≤ 3
    links := if linkCount > 0 then [websiteUrl] else [] }

/-- Result shape of `analyzeContentStructure`. -/
structure ContentStructure where
  paragraphs : Nat
  lists : Nat
  avgParagraphLength : ℚ
  deriving DecidableEq, Repr

/-- `analyzeContentStructure(content)`: paragraphs are the non-blank
pieces of `content.split("\n\n")`; list lines start with `*` or `-`
after trimming; the average paragraph length uses `p.split(" ").length`
(a literal one-space split). -/
def analyzeContentStructure (content : String) : ContentStructure :=
  let paragraphs := (jsSplitPara content.data).filter (fun p => (jsTrim p).length > 0)
  let bulletPoints :=
    ((jsSplitChar '\n' content.data).filter
      (fun line => startsWithL ['*'] (jsTrim line) || startsWithL ['-'] (jsTrim line))).length
  { paragraphs := paragraphs.length
    lists := bulletPoints
    avgParagraphLength :=
      if paragraphs.length > 0 then
        ((paragraphs.map (fun p => (jsSplitChar ' ' p).length)).sum : ℚ) / (paragraphs.length : ℚ)
      else 0 }

/-- Result shape of `analyzeContent`. -/
structure SEOAnalysis where
  wordCount : Nat
  keywordAnalysis : KeywordAnalysis
  headingStructure : HeadingStructure
  readability : Readability
  internalLinks : InternalLinks
  contentStructure : ContentStructure
  deriving DecidableEq, Repr

/-- `analyzeContent(content, primaryKeyword)` for a given
`websiteUrl`. -/
def analyzeContent (websiteUrl content primaryKeyword : String) : SEOAnalysis :=
  { wordCount := getWordCount content
    keywordAnalysis := analyzeKeywords content primaryKeyword
    headingStructure := analyzeHeadingStructure content
    readability := analyzeReadability content
    internalLinks := analyzeInternalLinks websiteUrl content
    contentStructure := analyzeContentStructure content }

/-- One optimization suggestion. -/
structure Suggestion where
  suggType : String
  priority : String
  message : String
  deriving DecidableEq, Repr

/-- `generateOptimizationSuggestions(analysis)`: at most one suggestion
per check, in the fixed order content → keywords → structure →
readability. -/
def generateOptimizationSuggestions (analysis : SEOAnalysis) : List Suggestion :=
  let s1 : List Suggestion :=
    if analysis.wordCount < 1200 then
      [{ suggType := "content", priority := "high"
         message := "Content is too short (" ++ toString analysis.wordCount ++
           " words). Aim for 1200-1800 words." }]
    else []
  let s2 : List Suggestion :=
    if !analysis.keywordAnalysis.primary.optimal then
      let density := analysis.keywordAnalysis.primary.density
      if density < 1 then
        [{ suggType := "keywords", priority := "medium"
           message := "Primary keyword density is low (" ++ jsToFixed1 density ++
             "%). Add more variations naturally." }]
      else
        [{ suggType := "keywords", priority := "high"
           message := "Primary keyword density is too high (" ++ jsToFixed1 density ++
             "%). Reduce to avoid keyword stuffing." }]
    else []
  let s3 : List Suggestion :=
    if !analysis.headingStructure.properStructure then
      [{ suggType := "structure", priority := "medium"
         message := "Improve heading structure. Use one H1 and multiple H2s for better SEO." }]
    else []
  let s4 : List Suggestion :=
    if analysis.readability.readabilityScore < 60 then
      [{ suggType := "readability", priority := "medium"
         message := "Content readability could be improved. Use shorter sentences and simpler words." }]
    else []
  s1 ++ s2 ++ s3 ++ s4

/-- Result shape of `calculateSEOScore`. -/
structure SEOScore where
  score : ℤ
  maxScore : ℤ
  percentage : ℤ
  grade : String
  deriving DecidableEq, Repr

/-- `getSEOGrade(percentage)`: fixed thresholds 90/80/70/60/50. -/
def getSEOGrade (percentage : ℚ) : String :=
  if percentage ≥ 90 then "A+"
  else if percentage ≥ 80 then "A"
  else if percentage ≥ 70 then "B"
  else if percentage ≥ 60 then "C"
  else if percentage ≥ 50 then "D"
  else "F"

/-- `calculateSEOScore(analysis)`: four additive components — word count
(25/15/5 with the 15-point branch gated by `wordCount ≥ 0.8 * 1200`),
keyword optimality (25/10), heading structure (25, or 15 when exactly
one H1, else 5) and readability (`Math.round(score / 100 * 25)`). -/
def calculateSEOScore (analysis : SEOAnalysis) : SEOScore :=
  let wcComp : ℤ :=
    if analysis.wordCount ≥ 1200 && analysis.wordCount ≤ 1800 then 25
    else if analysis.wordCount ≥ 960 then 15
    else 5
  let kwComp : ℤ := if analysis.keywordAnalysis.primary.optimal then 25 else 10
  let hComp : ℤ :=
    if analysis.headingStructure.properStructure then 25
    else if analysis.headingStructure.h1 == 1 then 15
    else 5
  let rComp : ℤ := jsRound ((analysis.readability.readabilityScore : ℚ) / 100 * 25)
  let score := wcComp + kwComp + hComp + rComp
  { score := score
    maxScore := 100
    percentage := jsRound ((score : ℚ) / 100 * 100)
    grade := getSEOGrade ((score : ℚ) / 100 * 100) }

end SEO

/-! ## Instruction constraint parser (`src/gemini-workflow-parser.js`)

Embedding of the `GeminiWorkflowParser` class.  The external Gemini call
is a parameter (an oracle mapping a model name to an outcome), and
`JSON.parse` on the response text is likewise a parameter
`jsParse : String → Except String RawWorkflow` (throwing is modelled by
`Except.error`). -/

namespace Gemini

/-- Result of a successful regex match: the full matched substring and
the single capture group (the digit run). -/
structure RegexMatch where
  matched : List Char
  capture : List Char
  deriving DecidableEq, Repr

/-- If `lit` is a prefix of `l`, the remainder of `l`. -/
def litPrefixRest (lit l : List Char) : Option (List Char) :=
  if startsWithL lit l then some (l.drop lit.length) else none

/-- Match `\s*(\d+)\s*words?` at the head of `l`; on success return the
consumed characters, the captured digits, and the remainder. -/
def numTailAt (l : List Char) : Option (List Char × List Char × List Char) :=
  let ws1 := l.takeWhile isWsChar
  let r1 := l.drop ws1.length
  let digits := r1.takeWhile isDigitChar
  if digits.isEmpty then none
  else
    let r2 := r1.drop digits.length
    let ws2 := r2.takeWhile isWsChar
    let r3 := r2.drop ws2.length
    match litPrefixRest ("word".data) r3 with
    | none => none
    | some r4 =>
      match r4 with
      | 's' :: r5 => some (ws1 ++ digits ++ ws2 ++ ("words".data), digits, r5)
      | _ => some (ws1 ++ digits ++ ws2 ++ ("word".data), digits, r4)

/-- Match `(?:alt1|alt2|…)\s*(\d+)\s*words?` at the head of `l`: the
alternatives are tried in order, falling through to the next alternative
when the numeric tail fails (as the regex engine backtracks). -/
def matchAltsNumAt (alts : List (List Char)) (l : List Char) : Option RegexMatch :=
  match alts with
  | [] => none
  | a :: rest =>
    match litPrefixRest a l with
    | some r =>
      match numTailAt r with
      | some (consumed, digits, _) => some ⟨a ++ consumed, digits⟩
      | none => matchAltsNumAt rest l
    | none => matchAltsNumAt rest l

/-- Leftmost match of `matchAltsNumAt` over the whole string (the
behaviour of `String.prototype.match` with a non-global regex). -/
def scanAltsNum (alts : List (List Char)) : List Char → Option RegexMatch
  | [] => matchAltsNumAt alts []
  | c :: rest =>
    match matchAltsNumAt alts (c :: rest) with
    | some m => some m
    | none => scanAltsNum alts rest

/-- Match `in\s*(\d+)\s*words?` at the head of `l` together with the
trailing `\b` (the leading `\b` is checked by the scanner). -/
def matchInWordsAt (l : List Char) : Option RegexMatch :=
  match litPrefixRest ("in".data) l with
  | none => none
  | some r =>
    match numTailAt r with
    | some (consumed, digits, rest) =>
      match rest with
      | [] => some ⟨("in".data) ++ consumed, digits⟩
      | c :: _ => if isWordChar c then none else some ⟨("in".data) ++ consumed, digits⟩
    | none => none

/-- Leftmost match of `/\bin\s*(\d+)\s*words?\b/`: `prev` carries the
character before the current position so the leading word boundary can
be checked. -/
def scanInWords : Option Char → List Char → Option RegexMatch
  | _, [] => none
  | prev, c :: rest =>
    let boundaryOk := match prev with
      | none => true
      | some p => !isWordChar p
    match (if boundaryOk then matchInWordsAt (c :: rest) else none) with
    | some m => some m
    | none => scanInWords (some c) rest

/-- Match `(\d+)\s*words?` (digits first, no leading whitespace) at the
head of `l`. -/
def numDirectAt (l : List Char) : Option (List Char × List Char) :=
  let digits := l.takeWhile isDigitChar
  if digits.isEmpty then none
  else
    let r2 := l.drop digits.length
    let ws2 := r2.takeWhile isWsChar
    let r3 := r2.drop ws2.length
    match litPrefixRest ("word".data) r3 with
    | none => none
    | some r4 =>
      match r4 with
      | 's' :: _ => some (digits ++ ws2 ++ ("words".data), digits)
      | _ => some (digits ++ ws2 ++ ("word".data), digits)

/-- Lazy gap search for `.*?(\d+)\s*words?`: find the shortest gap (not
crossing a newline, since `.` does not match line terminators) after
which the numeric part matches; returns gap and match parts. -/
def findNumLazy : List Char → Option (List Char × List Char)
  | [] => none
  | c :: rest =>
    match numDirectAt (c :: rest) with
    | some (consumed, digits) => some (consumed, digits)
    | none =>
      if c = '\n' || c = '\r' then none
      else
        match findNumLazy rest with
        | some (consumed, digits) => some (c :: consumed, digits)
        | none => none

/-- Leftmost match of `/(?:write|create|generate).*?(\d+)\s*words?/`. -/
def scanVerbNum (verbs : List (List Char)) : List Char → Option RegexMatch
  | [] => none
  | c :: rest =>
    let tryHere : Option RegexMatch :=
      match matchAltsVerb verbs (c :: rest) with
      | some (v, r) =>
        match findNumLazy r with
        | some (gapAndTail, digits) => some ⟨v ++ gapAndTail, digits⟩
        | none => none
      | none => none
    match tryHere with
    | some m => some m
    | none => scanVerbNum verbs rest
where
  /-- First verb alternative that is a prefix, with the remainder. -/
  matchAltsVerb (alts : List (List Char)) (l : List Char) : Option (List Char × List Char) :=
    match alts with
    | [] => none
    | a :: rest =>
      match litPrefixRest a l with
      | some r => some (a, r)
      | none => matchAltsVerb rest l

/-- Match `keep\s*it\s*(?:under|to|below)\s*(\d+)\s*words?` at head. -/
def matchKeepAt (l : List Char) : Option RegexMatch :=
  match litPrefixRest ("keep".data) l with
  | none => none
  | some r1 =>
    let ws1 := r1.takeWhile isWsChar
    let r2 := r1.drop ws1.length
    match litPrefixRest ("it".data) r2 with
    | none => none
    | some r3 =>
      let ws2 := r3.takeWhile isWsChar
      let r4 := r3.drop ws2.length
      match matchAltsNumAt [("under".data), ("to".data), ("below".data)] r4 with
      | some m => some ⟨("keep".data) ++ ws1 ++ ("it".data) ++ ws2 ++ m.matched, m.capture⟩
      | none => none

/-- Leftmost match of the `keep it under/to/below N words` pattern. -/
def scanKeep : List Char → Option RegexMatch
  | [] => none
  | c :: rest =>
    match matchKeepAt (c :: rest) with
    | some m => some m
    | none => scanKeep rest

/-- Match `(?:limit|cap)\s*(?:to|at)\s*(\d+)\s*words?` at head. -/
def matchLimitCapAt (l : List Char) : Option RegexMatch :=
  match firstAltRest [("limit".data), ("cap".data)] l with
  | none => none
  | some (a, r1) =>
    let ws1 := r1.takeWhile isWsChar
    let r2 := r1.drop ws1.length
    match matchAltsNumAt [("to".data), ("at".data)] r2 with
    | some m => some ⟨a ++ ws1 ++ m.matched, m.capture⟩
    | none => none
where
  firstAltRest (alts : List (List Char)) (l : List Char) : Option (List Char × List Char) :=
    match alts with
    | [] => none
    | a :: rest =>
      match litPrefixRest a l with
      | some r => some (a, r)
      | none => firstAltRest rest l

/-- Leftmost match of the `limit/cap to/at N words` pattern. -/
def scanLimitCap : List Char → Option RegexMatch
  | [] => none
  | c :: rest =>
    match matchLimitCapAt (c :: rest) with
    | some m => some m
    | none => scanLimitCap rest

/-- The `exactPatterns` list. -/
def exactMatchers : List (List Char → Option RegexMatch) :=
  [scanAltsNum [("exactly".data), ("precisely".data), ("must be".data)],
   scanInWords none,
   scanVerbNum [("write".data), ("create".data), ("generate".data)]]

/-- The `maxPatterns` list. -/
def maxMatchers : List (List Char → Option RegexMatch) :=
  [scanAltsNum [("under".data), ("below".data), ("less than".data), ("max".data),
     ("maximum".data), ("no more than".data)],
   scanKeep,
   scanLimitCap]

/-- The `minPatterns` list. -/
def minMatchers : List (List Char → Option RegexMatch) :=
  [scanAltsNum [("at least".data), ("minimum".data), ("min".data), ("no less than".data)],
   scanAltsNum [("over".data), ("above".data), ("more than".data)]]

/-- The `flexiblePatterns` list. -/
def flexibleMatchers : List (List Char → Option RegexMatch) :=
  [scanAltsNum [("around".data), ("about".data), ("approximately".data), ("roughly".data)],
   scanAltsNum [("~".data), ("±".data)]]

/-- Run a list of pattern matchers in order and return the first match
(the `for … of patterns` loops of `extractLengthConstraints`). -/
def firstMatch (ms : List (List Char → Option RegexMatch)) (l : List Char) : Option RegexMatch :=
  match ms with
  | [] => none
  | m :: rest =>
    match m l with
    | some r => some r
    | none => firstMatch rest l

/-- The length-constraint record (`lengthConstraints` in the source,
with `wordLimit : number | null` and NaN possible). -/
structure LengthConstraints where
  wordLimit : Option JsNum
  constraintType : String
  priority : String
  reasoning : String
  hasCriticalLimit : Bool
  deriving DecidableEq, Repr

/-- The source computes `parseInt(match)` where `match` is the regex
match *array*; JavaScript stringifies the array by joining the full
match and the capture group with a comma, so this is
`parseInt(matched + "," + capture)`. -/
def parseIntOfMatch (m : RegexMatch) : JsNum :=
  jsParseInt (m.matched ++ ',' :: m.capture)

/-- The `lengthDescriptors` table, in object-literal insertion order
(`Object.entries` iterates in that order). -/
def lengthDescriptors : List (String × Int × String × String) :=
  [("brief", 300, "maximum", "important"),
   ("short", 500, "maximum", "important"),
   ("quick", 400, "maximum", "important"),
   ("summary", 350, "maximum", "important"),
   ("overview", 600, "flexible", "suggestion"),
   ("comprehensive", 1500, "minimum", "suggestion"),
   ("detailed", 1200, "minimum", "suggestion"),
   ("in-depth", 2000, "minimum", "suggestion")]

/-- First descriptor whose name occurs in the lower-cased instruction. -/
def findDescriptor (l : List Char) : List (String × Int × String × String) →
    Option (String × Int × String × String)
  | [] => none
  | d :: rest => if containsSub d.1.data l then some d else findDescriptor l rest

/-- `extractLengthConstraints(instruction)`: numeric exact → maximum →
minimum → flexible patterns in order, then descriptive terms, then the
default no-constraint record. -/
def extractLengthConstraints (instruction : String) : LengthConstraints :=
  let lower := jsToLower instruction.data
  match firstMatch exactMatchers lower with
  | some m =>
    { wordLimit := some (parseIntOfMatch m), constraintType := "exact"
      priority := "critical", reasoning := "Exact word count specified in instruction"
      hasCriticalLimit := true }
  | none =>
  match firstMatch maxMatchers lower with
  | some m =>
    { wordLimit := some (parseIntOfMatch m), constraintType := "maximum"
      priority := "critical", reasoning := "Maximum word limit specified"
      hasCriticalLimit := true }
  | none =>
  match firstMatch minMatchers lower with
  | some m =>
    { wordLimit := some (parseIntOfMatch m), constraintType := "minimum"
      priority := "important", reasoning := "Minimum word count specified"
      hasCriticalLimit := true }
  | none =>
  match firstMatch flexibleMatchers lower with
  | some m =>
    { wordLimit := some (parseIntOfMatch m), constraintType := "flexible"
      priority := "important", reasoning := "Approximate word count specified"
      hasCriticalLimit := true }
  | none =>
  match findDescriptor lower lengthDescriptors with
  | some (name, limit, ctype, prio) =>
    { wordLimit := some (JsNum.num limit), constraintType := ctype
      priority := prio
      reasoning := "Descriptive length term \"" ++ name ++ "\" detected"
      hasCriticalLimit := false }
  | none =>
    { wordLimit := none, constraintType := "flexible"
      priority := "suggestion", reasoning := "No specific length constraints detected"
      hasCriticalLimit := false }

end Gemini

namespace Gemini

/-- Replace, case-insensitively, every occurrence of any of the literal
alternatives by the empty string (fuelled worker;
`text.replace(/a|b|…/gi, "")`). -/
def replaceAllAltsAux (alts : List (List Char)) : Nat → List Char → List Char
  | 0, l => l
  | _ + 1, [] => []
  | fuel + 1, c :: rest =>
    match firstAltLen alts (c :: rest) with
    | some n => replaceAllAltsAux alts fuel (List.drop (n - 1) rest)
    | none => c :: replaceAllAltsAux alts fuel rest
where
  /-- Length of the first alternative matching case-insensitively at the
  head. -/
  firstAltLen (alts : List (List Char)) (l : List Char) : Option Nat :=
    match alts with
    | [] => none
    | a :: rest =>
      if startsWithL (jsToLower a) (jsToLower (l.take a.length)) && a.length ≤ l.length
      then some a.length
      else firstAltLen rest l

/-- `text.replace(/alts/gi, "")`. -/
def replaceAllAlts (alts : List (List Char)) (l : List Char) : List Char :=
  replaceAllAltsAux alts (listLen l) l

/-- Length of a match of `kw \d+ words?` (single literal spaces) at the
head of `l`, case-insensitively. -/
def numWordsPatLen (kw : List Char) (l : List Char) : Option Nat :=
  match litPrefixRest (jsToLower kw ++ [' ']) (jsToLower l) with
  | none => none
  | some r1 =>
    let digits := r1.takeWhile isDigitChar
    if digits.isEmpty then none
    else
      match litPrefixRest ([' '] ++ ("word".data)) (r1.drop digits.length) with
      | none => none
      | some r2 =>
        let base := kw.length + 1 + digits.length + 5
        match r2 with
        | 's' :: _ => some (base + 1)
        | _ => some base

/-- Fuelled worker for `replaceAllNumWords`. -/
def replaceAllNumWordsAux (kw : List Char) : Nat → List Char → List Char
  | 0, l => l
  | _ + 1, [] => []
  | fuel + 1, c :: rest =>
    match numWordsPatLen kw (c :: rest) with
    | some n => replaceAllNumWordsAux kw fuel (List.drop (n - 1) rest)
    | none => c :: replaceAllNumWordsAux kw fuel rest

/-- `text.replace(/kw \d+ words?/gi, "")`. -/
def replaceAllNumWords (kw : List Char) (l : List Char) : List Char :=
  replaceAllNumWordsAux kw (listLen l) l

/-- `extractSimpleTopic(instruction)`: strip command words, content-type
words, connector words and word-count phrases, then trim; the fixed
fallback `"General topic"` when nothing remains. -/
def extractSimpleTopic (instruction : String) : String :=
  let s1 := replaceAllAlts
    [("create".data), ("write".data), ("generate".data), ("make".data), ("build".data)]
    instruction.data
  let s2 := replaceAllAlts
    [("blog post".data), ("article".data), ("guide".data), ("tutorial".data), ("analysis".data)] s1
  let s3 := replaceAllAlts
    [("about".data), ("on".data), ("regarding".data), ("concerning".data)] s2
  let s4 := replaceAllNumWords ("under".data) s3
  let s5 := replaceAllNumWords ("in".data) s4
  let t := jsTrim s5
  if t.isEmpty then "General topic" else String.mk t

/-- The stop-word list of `extractKeywords`. -/
def keywordStopWords : List (List Char) :=
  [("create".data), ("write".data), ("generate".data), ("blog".data), ("post".data),
   ("article".data), ("about".data), ("with".data), ("including".data), ("under".data),
   ("words".data), ("make".data), ("build".data)]

/-- `extractKeywords(instruction)`: the first five lower-cased
whitespace tokens longer than three characters that are not stop words
and not pure numbers. -/
def extractKeywords (instruction : String) : List String :=
  let words := jsSplitRun isWsChar (jsToLower instruction.data)
  ((words.filter (fun w =>
      w.length > 3 && !keywordStopWords.contains w && !w.all isDigitChar)).map
    String.mk).take 5

/-- Audience descriptor. -/
structure Audience where
  level : String
  industry : String
  expertise : String
  deriving DecidableEq, Repr

/-- Style constraints descriptor. -/
structure StyleConstraints where
  tone : String
  complexity : String
  format : String
  voice : String
  perspective : String
  deriving DecidableEq, Repr

/-- Content constraints descriptor. -/
structure ContentConstraints where
  mustInclude : List String
  shouldInclude : List String
  mustExclude : List String
  dataRequirements : String
  depthLevel : String
  deriving DecidableEq, Repr

/-- SEO constraints descriptor. -/
structure SeoConstraints where
  primaryKeywords : List String
  keywordDensity : String
  searchIntent : String
  deriving DecidableEq, Repr

/-- Conflict-resolution report. -/
structure ConflictResolution where
  hasConflicts : Bool
  conflictTypes : List String
  recommendedPriority : String
  deriving DecidableEq, Repr

/-- The legacy `style` field kept for compatibility.  `validateAndEnhance`
assigns the `styleConstraints` object itself
(`parsedWorkflow.style = parsedWorkflow.styleConstraints || …`, and
`styleConstraints` is always set by that point), while
`createFallbackWorkflow` assigns a three-field literal; the two shapes
are the two constructors. -/
inductive WorkflowStyle where
  | fromConstraints (sc : StyleConstraints)
  | legacy (tone depth format : String)
  deriving DecidableEq, Repr

/-- The legacy `requirements` field. -/
structure Requirements where
  includeExamples : Bool
  includeData : Bool
  includeTrends : Bool
  includeSteps : Bool
  includeComparison : Bool
  deriving DecidableEq, Repr

/-- A workflow as decoded from the external model's JSON, before
validation: every top-level field may be absent.  (A field absent from
the JSON is `none`; the sub-objects are taken schema-shaped, as the
strict-JSON prompt requests.) -/
structure RawWorkflow where
  contentType : Option String
  topic : Option String
  audience : Option Audience
  lengthConstraints : Option LengthConstraints
  styleConstraints : Option StyleConstraints
  contentConstraints : Option ContentConstraints
  seoConstraints : Option SeoConstraints
  conflictResolution : Option ConflictResolution
  deriving DecidableEq, Repr

/-- The validated workflow produced by `validateAndEnhance` or
`createFallbackWorkflow`. -/
structure Workflow where
  contentType : String
  topic : String
  audience : Audience
  lengthConstraints : Option LengthConstraints
  styleConstraints : StyleConstraints
  contentConstraints : ContentConstraints
  seoConstraints : SeoConstraints
  conflictResolution : Option ConflictResolution
  originalInstruction : String
  parsedAt : String
  modelUsed : String
  fallbackUsed : Bool
  style : WorkflowStyle
  seoKeywords : List String
  requirements : Requirements
  estimatedLength : String
  isComplex : Bool
  deriving DecidableEq, Repr

/-- JavaScript truthiness of a `wordLimit` value: `null`, `NaN` and `0`
are falsy. -/
def jsNumTruthy : Option JsNum → Bool
  | some (JsNum.num n) => n ≠ 0
  | some JsNum.nan => false
  | none => false

/-- `getEstimatedLength(lengthConstraints)`. -/
def getEstimatedLength (lc : Option LengthConstraints) : String :=
  match lc with
  | none => "medium"
  | some c =>
    match c.wordLimit with
    | some (JsNum.num n) =>
      if n = 0 then "medium"
      else if n ≤ 300 then "short"
      else if n ≤ 800 then "medium"
      else if n ≤ 1500 then "long"
      else "comprehensive"
    | _ => "medium"

/-- `isComplexWorkflow(workflow)` as used on the freshly validated
workflow (optional chaining on present fields). -/
def isComplexWorkflow (lc : Option LengthConstraints) (cc : ContentConstraints)
    (contentType : String) : Bool :=
  (match lc with
   | some c => c.hasCriticalLimit
   | none => false) ||
  cc.mustInclude.length > 2 ||
  (["guide", "tutorial", "analysis", "comparison"].contains contentType)

/-- The length-constraint backfill step at the top of
`validateAndEnhance`: when the external parse has no (truthy) word
limit, run the regex extractor and adopt its result only when it found
a truthy word limit. -/
def backfillLength (rawLc : Option LengthConstraints) (instruction : String) :
    Option LengthConstraints :=
  let needsBackfill :=
    match rawLc with
    | none => true
    | some lc => !jsNumTruthy lc.wordLimit
  if needsBackfill then
    let extracted := extractLengthConstraints instruction
    if jsNumTruthy extracted.wordLimit then some extracted else rawLc
  else rawLc

/-- `validateAndEnhance(parsedWorkflow, originalInstruction, modelUsed)`:
backfill the length constraint, default every missing field, and attach
metadata and the legacy compatibility fields.  (`parsedAt` is the
current ISO timestamp, passed as a parameter.) -/
def validateAndEnhance (raw : RawWorkflow) (originalInstruction modelUsed parsedAtIso : String) :
    Workflow :=
  let lengthConstraints := backfillLength raw.lengthConstraints originalInstruction
  let contentType :=
    match raw.contentType with
    | some s => if s.isEmpty then "blog-post" else s
    | none => "blog-post"
  let topic :=
    match raw.topic with
    | some s => if s.isEmpty then extractSimpleTopic originalInstruction else s
    | none => extractSimpleTopic originalInstruction
  let audience :=
    (raw.audience).getD { level := "general", industry := "general", expertise := "basic" }
  let styleConstraints :=
    (raw.styleConstraints).getD
      { tone := "professional", complexity := "moderate", format := "standard"
        voice := "active", perspective := "third-person" }
  let contentConstraints :=
    (raw.contentConstraints).getD
      { mustInclude := [], shouldInclude := ["examples", "current trends"]
        mustExclude := [], dataRequirements := "examples", depthLevel := "moderate" }
  let seoConstraints :=
    (raw.seoConstraints).getD
      { primaryKeywords := extractKeywords originalInstruction
        keywordDensity := "natural", searchIntent := "informational" }
  { contentType := contentType
    topic := topic
    audience := audience
    lengthConstraints := lengthConstraints
    styleConstraints := styleConstraints
    contentConstraints := contentConstraints
    seoConstraints := seoConstraints
    conflictResolution := raw.conflictResolution
    originalInstruction := originalInstruction
    parsedAt := parsedAtIso
    modelUsed := modelUsed
    fallbackUsed := false
    style := WorkflowStyle.fromConstraints styleConstraints
    seoKeywords := seoConstraints.primaryKeywords
    requirements :=
      { includeExamples := contentConstraints.dataRequirements = "examples"
        includeData := contentConstraints.dataRequirements = "statistics"
        includeTrends := true
        includeSteps := styleConstraints.format = "step-by-step"
        includeComparison := contentType = "comparison" }
    estimatedLength := getEstimatedLength lengthConstraints
    isComplex := isComplexWorkflow lengthConstraints contentConstraints contentType }

/-- `createFallbackWorkflow(instruction)`: the workflow synthesized from
the local heuristics alone, marked `fallbackUsed` and
`modelUsed = "regex-fallback"`. -/
def createFallbackWorkflow (instruction parsedAtIso : String) : Workflow :=
  let lengthConstraints := extractLengthConstraints instruction
  { contentType := "blog-post"
    topic := extractSimpleTopic instruction
    audience := { level := "general", industry := "general", expertise := "basic" }
    lengthConstraints := some lengthConstraints
    styleConstraints :=
      { tone := "professional", complexity := "moderate", format := "standard"
        voice := "active", perspective := "third-person" }
    contentConstraints :=
      { mustInclude := [], shouldInclude := ["examples", "current trends"]
        mustExclude := [], dataRequirements := "examples", depthLevel := "moderate" }
    seoConstraints :=
      { primaryKeywords := extractKeywords instruction
        keywordDensity := "natural", searchIntent := "informational" }
    conflictResolution :=
      some { hasConflicts := false, conflictTypes := []
             recommendedPriority := "word count > audience > style" }
    originalInstruction := instruction
    parsedAt := parsedAtIso
    modelUsed := "regex-fallback"
    fallbackUsed := true
    style := WorkflowStyle.legacy "professional" "intermediate" "standard"
    requirements :=
      { includeExamples := true, includeData := false, includeTrends := true
        includeSteps := false, includeComparison := false }
    seoKeywords := extractKeywords instruction
    estimatedLength := getEstimatedLength (some lengthConstraints)
    isComplex := false }

end Gemini

namespace Gemini

/-- Lookup in an insertion-ordered association list (the embedding of a
JavaScript `Map`): value of the first entry with the given key. -/
def mapGet {α : Type} (m : List (String × α)) (k : String) : Option α :=
  match m with
  | [] => none
  | (k', v) :: rest => if k' = k then some v else mapGet rest k

/-- `Map.prototype.set`: replace the value in place when the key exists
(keeping the insertion order), append otherwise. -/
def mapSet {α : Type} (m : List (String × α)) (k : String) (v : α) : List (String × α) :=
  match m with
  | [] => [(k, v)]
  | (k', v') :: rest => if k' = k then (k, v) :: rest else (k', v') :: mapSet rest k v

/-- `Map.prototype.delete`: remove the entry with the given key. -/
def mapDelete {α : Type} (m : List (String × α)) (k : String) : List (String × α) :=
  match m with
  | [] => []
  | (k', v') :: rest => if k' = k then rest else (k', v') :: mapDelete rest k

/-- The cache key: `instruction.toLowerCase().trim()`. -/
def normalizeKey (instruction : String) : String :=
  String.mk (jsTrim (jsToLower instruction.data))

/-- `getCachedParsing(instruction)` against a cache value. -/
def getCachedParsing (cache : List (String × Workflow)) (instruction : String) :
    Option Workflow :=
  mapGet cache (normalizeKey instruction)

/-- `cacheResult(instruction, result)`: set under the normalized key,
then, when the size exceeds 50, delete the first (oldest-inserted)
key — `this.workflowCache.keys().next().value`. -/
def cacheResult (cache : List (String × Workflow)) (instruction : String)
    (result : Workflow) : List (String × Workflow) :=
  let m := mapSet cache (normalizeKey instruction) result
  if m.length > 50 then
    match m with
    | [] => m
    | (k0, _) :: _ => mapDelete m k0
  else m

/-- One recorded model failure. -/
structure FailureRec where
  timestamp : ℤ
  errMsg : String
  errType : String
  deriving DecidableEq, Repr

/-- `getErrorType(errorMessage)`. -/
def getErrorType (errorMessage : String) : String :=
  if containsSub ("quota".data) errorMessage.data then "quota"
  else if containsSub ("rate limit".data) errorMessage.data then "rate_limit"
  else if containsSub ("not found".data) errorMessage.data then "not_available"
  else "api_error"

/-- `recordModelFailure(modelName, error)` at time `now` (milliseconds):
append a failure record and keep only the failures of the last hour. -/
def recordModelFailure (failures : List (String × List FailureRec)) (modelName : String)
    (now : ℤ) (errMsg : String) : List (String × List FailureRec) :=
  let fs := (mapGet failures modelName).getD []
  let fs' := fs ++ [{ timestamp := now, errMsg := errMsg, errType := getErrorType errMsg }]
  let recent := fs'.filter (fun f => now - f.timestamp < 3600000)
  mapSet failures modelName recent

/-- `clearModelFailure(modelName)`. -/
def clearModelFailure (failures : List (String × List FailureRec)) (modelName : String) :
    List (String × List FailureRec) :=
  mapDelete failures modelName

/-- `isModelTemporarilyBlocked(modelName)` at time `now`: at least three
failures recorded within the last 15 minutes (900000 ms). -/
def isModelTemporarilyBlocked (failures : List (String × List FailureRec))
    (modelName : String) (now : ℤ) : Bool :=
  let fs := (mapGet failures modelName).getD []
  (fs.filter (fun f => now - f.timestamp < 900000)).length ≥ 3

/-- The first `{` through the last `}` of the text, when the `}` comes
after the `{` — the match of `/\{[\s\S]*\}/` (greedy). -/
def braceSpan (l : List Char) : Option (List Char) :=
  match l.findIdx? (fun c => c = '{') with
  | none => none
  | some i =>
    match lastIdxAux '}' l with
    | none => none
    | some j => if i < j then some ((l.drop i).take (j - i + 1)) else none

/-- Fuelled worker for `removeFirstOcc`. -/
def removeFirstOccAux (needle : List Char) : Nat → List Char → List Char
  | 0, l => l
  | _ + 1, [] => []
  | fuel + 1, c :: rest =>
    if startsWithL needle (c :: rest) then List.drop (needle.length - 1) rest
    else c :: removeFirstOccAux needle fuel rest

/-- `text.replace(needle, "")` for a literal needle (first occurrence
only). -/
def removeFirstOcc (needle l : List Char) : List Char :=
  removeFirstOccAux needle (listLen l) l

/-- Fuelled worker for `removeTicksWs`. -/
def removeTicksWsAux : Nat → List Char → List Char
  | 0, l => l
  | _ + 1, [] => []
  | fuel + 1, c :: rest =>
    if startsWithL ("```".data) (c :: rest) then
      removeTicksWsAux fuel ((rest.drop 2).dropWhile isWsChar)
    else c :: removeTicksWsAux fuel rest

/-- `text.replace(/```\s*/g, "")`: remove every code-fence marker along
with the whitespace that follows it. -/
def removeTicksWs (l : List Char) : List Char :=
  removeTicksWsAux (listLen l) l

/-- `text.replace(/^\s*```/g, "")`: the anchor restricts the match to
the start of the string, where the leading whitespace and one fence
marker are removed. -/
def stripLeadTicks (l : List Char) : List Char :=
  let ws := l.takeWhile isWsChar
  let rest := l.drop ws.length
  if startsWithL ("```".data) rest then rest.drop 3 else l

/-- `cleanJSONResponse(text)`: drop the first fence marker, drop all
fence markers with trailing whitespace, drop a leading
whitespace-and-fence prefix, reduce to the brace-delimited segment when
the whole string matches `/^[^{]*({[\s\S]*})[^}]*$/`, and trim. -/
def cleanJSONResponse (text : String) : String :=
  let s1 := removeFirstOcc ("```".data) text.data
  let s2 := removeTicksWs s1
  let s3 := stripLeadTicks s2
  let s4 :=
    match braceSpan s3 with
    | some seg => seg
    | none => s3
  String.mk (jsTrim s4)

/-- `parseAndValidateJSON(responseText)`: direct parse, then parse of the
first-brace-to-last-brace segment, then parse of the cleaned response;
`none` when every stage fails (no exception escapes). -/
def parseAndValidateJSON (jsParse : String → Except String RawWorkflow)
    (responseText : String) : Option RawWorkflow :=
  match jsParse responseText with
  | Except.ok w => some w
  | Except.error _ =>
    let stage3 : Option RawWorkflow :=
      match jsParse (cleanJSONResponse responseText) with
      | Except.ok w => some w
      | Except.error _ => none
    match braceSpan responseText.data with
    | some seg =>
      match jsParse (String.mk seg) with
      | Except.ok w => some w
      | Except.error _ => stage3
    | none => stage3

/-- Outcome of one call of the external generation service for a given
model: an exception, or a response text. -/
inductive ModelOutcome where
  | throwErr (msg : String)
  | respond (text : String)
  deriving DecidableEq, Repr

/-- The error classification of `tryModelParsing`'s catch block. -/
def wrapApiError (modelName msg : String) : String :=
  if containsSub ("quota".data) msg.data then "Quota exceeded for " ++ modelName
  else if containsSub ("rate limit".data) msg.data then "Rate limited for " ++ modelName
  else if containsSub ("not found".data) msg.data then "Model " ++ modelName ++ " not available"
  else "API error: " ++ msg

/-- `tryModelParsing(modelName, instruction)`: on a service exception,
re-throw the classified error; on a response, recover JSON and either
return the validated workflow or `null` (`Except.ok none`) when the
JSON is beyond recovery. -/
def tryModelParsing (jsParse : String → Except String RawWorkflow)
    (oracle : String → ModelOutcome) (modelName instruction parsedAtIso : String) :
    Except String (Option Workflow) :=
  match oracle modelName with
  | ModelOutcome.throwErr msg => Except.error (wrapApiError modelName msg)
  | ModelOutcome.respond text =>
    match parseAndValidateJSON jsParse text with
    | some raw => Except.ok (some (validateAndEnhance raw instruction modelName parsedAtIso))
    | none => Except.ok none

/-- The mutable state of a `GeminiWorkflowParser` instance. -/
structure ParserState where
  workflowCache : List (String × Workflow)
  modelFailures : List (String × List FailureRec)
  deriving DecidableEq, Repr

/-- The fixed `modelChain` (names only; the descriptions are not used by
the control flow). -/
def modelChain : List String :=
  ["gemini-2.5-flash", "gemini-1.5-flash", "gemini-1.5-pro", "gemini-1.0-pro"]

/-- The model loop of `parseInstruction`: skip blocked models; on
success cache the result and clear the model's failures and return; on
a thrown error record the failure and continue; on an unrecoverable
JSON response (`null` result) just continue; when the chain is
exhausted return the regex fallback workflow. -/
def parseLoop (jsParse : String → Except String RawWorkflow)
    (oracle : String → ModelOutcome) (nowMs : ℤ) (parsedAtIso instruction : String) :
    List String → ParserState → Except String Workflow × ParserState
  | [], st => (Except.ok (createFallbackWorkflow instruction parsedAtIso), st)
  | m :: rest, st =>
    if isModelTemporarilyBlocked st.modelFailures m nowMs then
      parseLoop jsParse oracle nowMs parsedAtIso instruction rest st
    else
      match tryModelParsing jsParse oracle m instruction parsedAtIso with
      | Except.ok (some w) =>
        (Except.ok w,
          { workflowCache := cacheResult st.workflowCache instruction w
            modelFailures := clearModelFailure st.modelFailures m })
      | Except.ok none => parseLoop jsParse oracle nowMs parsedAtIso instruction rest st
      | Except.error e =>
        parseLoop jsParse oracle nowMs parsedAtIso instruction rest
          { st with modelFailures := recordModelFailure st.modelFailures m nowMs e }

/-- `parseInstruction(instruction)`: cache lookup, then the model loop.
The `Except` layer records that an exception could in principle
propagate to the caller; the theorems show it never does. -/
def parseInstruction (jsParse : String → Except String RawWorkflow)
    (oracle : String → ModelOutcome) (nowMs : ℤ) (parsedAtIso : String)
    (st : ParserState) (instruction : String) :
    Except String Workflow × ParserState :=
  match getCachedParsing st.workflowCache instruction with
  | some w => (Except.ok w, st)
  | none => parseLoop jsParse oracle nowMs parsedAtIso instruction modelChain st

end Gemini

/-! ## Content generator (`src/content-generator.js`)

Only the deterministic post-processing of `generateWorkflowContent` is
embedded: word counting and mechanical trimming to a maximum word
limit.  The word limit reaching `trimToWordLimit` is the raw
`wordLimit` of the workflow's length constraint, so it can be a number,
`null` or `NaN`; the JavaScript coercions of the comparison and of
`Array.prototype.slice` are embedded explicitly. -/

namespace ContentGen

open Gemini

/-- `words.length <= wordLimit`: `null` coerces to `0`, any comparison
with `NaN` is false. -/
def jsLeNum (len : Nat) (lim : Option JsNum) : Bool :=
  match lim with
  | none => (len : ℤ) ≤ 0
  | some JsNum.nan => false
  | some (JsNum.num z) => (len : ℤ) ≤ z

/-- `wordCount > limit` with the same coercions. -/
def jsGtNum (wc : Nat) (lim : Option JsNum) : Bool :=
  match lim with
  | none => (wc : ℤ) > 0
  | some JsNum.nan => false
  | some (JsNum.num z) => (wc : ℤ) > z

/-- `words.slice(0, wordLimit)`: `null` and `NaN` coerce to `0`; a
negative limit counts from the end. -/
def jsSliceEnd {α : Type} (l : List α) (lim : Option JsNum) : List α :=
  match lim with
  | none => l.take 0
  | some JsNum.nan => l.take 0
  | some (JsNum.num z) =>
    if z < 0 then l.take (((l.length : ℤ) + z).toNat) else l.take z.toNat

/-- `countWords(content)`: `content.trim().split(/\s+/).length` — note
that this counts `1` for a blank string, since splitting an empty
string yields `[""]`. -/
def countWords (content : String) : Nat :=
  (jsSplitRun isWsChar (jsTrim content.data)).length

/-- `trimToWordLimit(content, wordLimit)`: return the content unchanged
when its word count is within the limit; otherwise keep the first
`wordLimit` words joined by single spaces and, when the last `.` of
that truncation sits beyond 80% of its length, cut right after that
`.`.  The comparison `lastSentence > result.length * 0.8` is exact for
doubles at every reachable input (the binary value of `0.8` exceeds 4/5
by less than one part in 10^16, which cannot move an integer across the
threshold), so it is embedded as `5 * lastSentence > 4 * length`. -/
def trimToWordLimit (content : String) (wordLimit : Option JsNum) : String :=
  let words := jsSplitRun isWsChar (jsTrim content.data)
  if jsLeNum words.length wordLimit then content
  else
    let trimmed := jsSliceEnd words wordLimit
    let r := listJoinSep [' '] trimmed
    let lastSentence := jsLastIndexOfChar '.' r
    if 5 * lastSentence > 4 * (r.length : ℤ) then
      String.mk (r.take (lastSentence + 1).toNat)
    else String.mk r

/-- Result of the post-processing step: the (possibly trimmed) content,
the word count stored in the metadata, and the `trimmed` flag. -/
structure GenPostResult where
  content : String
  wordCount : Nat
  trimmed : Bool
  deriving DecidableEq, Repr

/-- The post-processing block of `generateWorkflowContent` (lines
50–71): when the workflow carries a critical maximum limit and the
delivered word count exceeds it, trim, refresh the stored word count
and set `trimmed`; otherwise pass the generation result through
(`wc0` is the word count the generation step stored). -/
def generateWorkflowPostProcess (lc : Option LengthConstraints) (content : String)
    (wc0 : Nat) : GenPostResult :=
  match lc with
  | none => { content := content, wordCount := wc0, trimmed := false }
  | some c =>
    if c.hasCriticalLimit then
      let wordCount := countWords content
      if c.constraintType = "maximum" && jsGtNum wordCount c.wordLimit then
        let newContent := trimToWordLimit content c.wordLimit
        { content := newContent, wordCount := countWords newContent, trimmed := true }
      else { content := content, wordCount := wc0, trimmed := false }
    else { content := content, wordCount := wc0, trimmed := false }

end ContentGen

/-! ## File manager (`src/file-manager.js`)

Filename generation, post listing and cleanup.  The filesystem is
abstracted as the list of filenames in the output directory; the
current date and time strings of `generateFilename` are parameters. -/

namespace FileMgr

/-- Lower-case ASCII letters and digits — the class `[a-z0-9]` of
`createSlug` (applied after lower-casing). -/
def isLowerAlnum (c : Char) : Bool :=
  ('a' ≤ c && c ≤ 'z') || isDigitChar c

/-- Worker for the replacement `/[^a-z0-9]+/g → "-"`: each maximal run
of non-alphanumeric characters becomes a single dash. -/
def collapseNonAlnumAux : Bool → List Char → List Char
  | _, [] => []
  | inRun, c :: rest =>
    if isLowerAlnum c then c :: collapseNonAlnumAux false rest
    else if inRun then collapseNonAlnumAux true rest
    else '-' :: collapseNonAlnumAux true rest

/-- The replacement `/(^-|-$)/g → ""`: remove one leading and one
trailing dash. -/
def stripDashEnds (l : List Char) : List Char :=
  let l1 := match l with
    | '-' :: rest => rest
    | _ => l
  match l1.reverse with
  | '-' :: r => r.reverse
  | _ => l1

/-- `createSlug(text)`: lower-case, collapse non-alphanumeric runs to
dashes, strip boundary dashes, truncate to 50 characters. -/
def createSlug (text : String) : String :=
  String.mk ((stripDashEnds (collapseNonAlnumAux false (jsToLower text.data))).take 50)

/-- `generateFilename(topic, customName)`: a custom name gets a `.json`
extension unless it already has one; the auto-generated name is
`date-time-slug.json` with the date and time strings passed in
(`toISOString().split("T")[0]` and `toTimeString` with `:` replaced by
`-` in the source). -/
def generateFilename (topic : String) (customName : Option String)
    (dateStr timeStr : String) : String :=
  match customName with
  | some c => if endsWithL (".json".data) c.data then c else c ++ ".json"
  | none => dateStr ++ "-" ++ timeStr ++ "-" ++ createSlug topic ++ ".json"

/-- Code-point lexicographic `<` on strings (the behaviour of
`localeCompare` on the digit-and-dash timestamped filenames this code
sorts). -/
def strLtL : List Char → List Char → Bool
  | [], [] => false
  | [], _ :: _ => true
  | _ :: _, [] => false
  | a :: as, b :: bs => if a < b then true else if b < a then false else strLtL as bs

/-- Insert into a descending-sorted list. -/
def insertStrDesc (x : String) : List String → List String
  | [] => [x]
  | y :: ys => if strLtL y.data x.data then x :: y :: ys else y :: insertStrDesc x ys

/-- `files.sort((a, b) => b.localeCompare(a))`: descending sort. -/
def sortStrDesc : List String → List String
  | [] => []
  | x :: xs => insertStrDesc x (sortStrDesc xs)

/-- `listBlogPosts(directory)` restricted to its pure core: from the
directory's filenames, keep those ending in `.txt` and sort them
descending (most recent first by timestamp prefix). -/
def listBlogPosts (files : List String) : List String :=
  sortStrDesc (files.filter (fun f => endsWithL (".txt".data) f.data))

/-- The files `cleanupOldPosts(keepCount)` deletes: none when the
listing holds at most `keepCount` posts, otherwise everything after the
first `keepCount` of the listing. -/
def cleanupDeletions (keepCount : Nat) (files : List String) : List String :=
  let posts := listBlogPosts files
  if posts.length ≤ keepCount then [] else posts.drop keepCount

end FileMgr

/-! ## Helper lemmas -/

theorem jsRound_eq_of_bounds (q : ℚ) (n : ℤ) (h1 : (n : ℚ) ≤ q + 1/2) (h2 : q + 1/2 < n + 1) :
    jsRound q = n := by
  unfold jsRound
  exact Int.floor_eq_iff.mpr ⟨h1, by exact_mod_cast h2⟩

theorem jsRound_nonneg (q : ℚ) (h : 0 ≤ q) : 0 ≤ jsRound q := by
  unfold jsRound
  have : (0 : ℚ) ≤ q + 1/2 := by linarith
  exact_mod_cast Int.le_floor.mpr (by exact_mod_cast this)

theorem jsRound_le (q : ℚ) (n : ℤ) (h : q ≤ (n : ℚ)) : jsRound q ≤ n := by
  unfold jsRound
  have : q + 1/2 < (n : ℚ) + 1 := by linarith
  exact Int.le_of_lt_add_one (Int.floor_lt.mpr (by push_cast; linarith))

theorem startsWithL_append_self (a b : List Char) : startsWithL a (a ++ b) = true := by
  induction a with
  | nil => simp [startsWithL]
  | cons c cs ih => simp [startsWithL, ih]

theorem endsWithL_append_self (s l : List Char) : endsWithL s (l ++ s) = true := by
  unfold endsWithL
  rw [List.reverse_append]
  exact startsWithL_append_self s.reverse l.reverse

theorem mem_insertStrDesc (x y : String) (l : List String) :
    y ∈ FileMgr.insertStrDesc x l ↔ y = x ∨ y ∈ l := by
  induction l with
  | nil => simp [FileMgr.insertStrDesc]
  | cons z zs ih =>
    by_cases h : FileMgr.strLtL z.data x.data
    · simp [FileMgr.insertStrDesc, h]
    · simp [FileMgr.insertStrDesc, h, ih]
      tauto

theorem mem_sortStrDesc (y : String) (l : List String) :
    y ∈ FileMgr.sortStrDesc l ↔ y ∈ l := by
  induction l with
  | nil => simp [FileMgr.sortStrDesc]
  | cons z zs ih => simp [FileMgr.sortStrDesc, mem_insertStrDesc, ih]

theorem contains_eq_false_of_forall_ne (l : List String) (x : String)
    (h : ∀ y ∈ l, y ≠ x) : l.contains x = false := by
  induction l with
  | nil => rfl
  | cons z zs ih =>
    have hz : z ≠ x := h z (by simp)
    simp only [List.contains_cons]
    rw [ih (fun y hy => h y (by simp [hy]))]
    simpa using fun h' => hz h'.symm

/-! ## Claim theorems -/

/-- C1: evaluation of the local length-constraint extractor at the
claim's inputs.  The constraint type, priority and descriptor handling
behave as the claim says, but on every numeric pattern the code computes
`parseInt(match)` on the whole match array — the stringified array
starts with the matched text, not with the digits — so the extracted
`wordLimit` is `NaN` rather than 500 (resp. 300): the numeric half of
the claim describes the evident intent (`parseInt(match[1])`), which the
code misses. -/
theorem c1_extract_length_eval :
    Gemini.extractLengthConstraints ("write this in exactly 500 words") =
      { wordLimit := some JsNum.nan, constraintType := "exact", priority := "critical"
        reasoning := "Exact word count specified in instruction", hasCriticalLimit := true } ∧
    Gemini.extractLengthConstraints ("keep it under 300 words") =
      { wordLimit := some JsNum.nan, constraintType := "maximum", priority := "critical"
        reasoning := "Maximum word limit specified", hasCriticalLimit := true } ∧
    Gemini.extractLengthConstraints ("a brief summary") =
      { wordLimit := some (JsNum.num 300), constraintType := "maximum", priority := "important"
        reasoning := "Descriptive length term \"brief\" detected", hasCriticalLimit := false } := by
  refine ⟨?_, ?_, ?_⟩ <;> decide

/-- Count of lines whose trimmed prefix is the given heading marker.
Modelled from the spec's words ("count of lines whose trimmed prefix is
exactly …"), for comparison against the code's untrimmed check. -/
def specTrimmedHeadingCount (content : String) (marker : List Char) : Nat :=
  ((jsSplitChar '\n' content.data).filter (fun line => startsWithL marker (jsTrim line))).length

/-- C4 counterexample: on the text `" # Indented Title\n## A\n## B"` the
code counts zero H1 headings, while the claim's trimmed-prefix rule
("an indented heading line still counts") counts one — the source
checks `line.startsWith("# ")` without trimming. -/
theorem c4_heading_counterexample :
    (SEO.analyzeHeadingStructure (" # Indented Title\n## A\n## B")).h1 = 0 ∧
    specTrimmedHeadingCount (" # Indented Title\n## A\n## B") ('#' :: [' ']) = 1 := by
  constructor <;> decide

/-- Count of lines whose raw (untrimmed) prefix is the given heading
marker: the rule the code actually implements. -/
def rawPrefixHeadingCount (content : String) (marker : List Char) : Nat :=
  (jsSplitChar '\n' content.data).countP (fun line => startsWithL marker line)

/-- C4 (amended): the heading analysis counts exactly the lines whose
raw, untrimmed prefix is `"# "`, `"## "`, `"### "`, `"#### "`
respectively — a line `"#Title"` without the space counts for no level,
and an indented heading line also counts for no level — and
`properStructure` holds iff the H1 count is exactly 1 and the H2 count
is at least 2. -/
theorem c4_heading_amended (text : String) :
    ((SEO.analyzeHeadingStructure text).h1 = rawPrefixHeadingCount text ('#' :: [' ']) ∧
     (SEO.analyzeHeadingStructure text).h2 = rawPrefixHeadingCount text ('#' :: '#' :: [' ']) ∧
     (SEO.analyzeHeadingStructure text).h3 = rawPrefixHeadingCount text ('#' :: '#' :: '#' :: [' ']) ∧
     (SEO.analyzeHeadingStructure text).h4 =
       rawPrefixHeadingCount text ('#' :: '#' :: '#' :: '#' :: [' '])) ∧
    ((SEO.analyzeHeadingStructure text).properStructure = true ↔
      ((SEO.analyzeHeadingStructure text).h1 = 1 ∧ 2 ≤ (SEO.analyzeHeadingStructure text).h2)) ∧
    (SEO.analyzeHeadingStructure ("#Title")).h1 = 0 ∧
    (SEO.analyzeHeadingStructure ("  # Indented")).h1 = 0 ∧
    (SEO.analyzeHeadingStructure ("# Title\n## A\n## B")).properStructure = true := by
  refine ⟨⟨?_, ?_, ?_, ?_⟩, ?_, ?_, ?_, ?_⟩
  · simp [SEO.analyzeHeadingStructure, rawPrefixHeadingCount, List.countP_eq_length_filter]
  · simp [SEO.analyzeHeadingStructure, rawPrefixHeadingCount, List.countP_eq_length_filter]
  · simp [SEO.analyzeHeadingStructure, rawPrefixHeadingCount, List.countP_eq_length_filter]
  · simp [SEO.analyzeHeadingStructure, rawPrefixHeadingCount, List.countP_eq_length_filter]
  · simp [SEO.analyzeHeadingStructure]
  · decide
  · decide
  · decide

/-- C10: an auto-generated filename (`date-time-slug.json`) ends in
`.json` and not in `.txt`; `listBlogPosts` returns only `.txt` files, so
the saved post is never listed, and `cleanupOldPosts` deletes only from
that listing, so the saved post is never deleted. -/
theorem c10_json_never_listed_or_deleted (topic dateStr timeStr : String)
    (files : List String) (keepCount : Nat) :
    endsWithL (".json".data) (FileMgr.generateFilename topic none dateStr timeStr).data = true ∧
    endsWithL (".txt".data) (FileMgr.generateFilename topic none dateStr timeStr).data = false ∧
    (FileMgr.listBlogPosts files).contains (FileMgr.generateFilename topic none dateStr timeStr)
      = false ∧
    (FileMgr.cleanupDeletions keepCount files).contains
      (FileMgr.generateFilename topic none dateStr timeStr) = false := by
  set f := FileMgr.generateFilename topic none dateStr timeStr with hf
  have hshape : f.data = (dateStr ++ "-" ++ timeStr ++ "-" ++ FileMgr.createSlug topic).data
      ++ (".json".data) := by
    rw [hf]
    simp [FileMgr.generateFilename]
  have hjson : endsWithL (".json".data) f.data = true := by
    rw [hshape]; exact endsWithL_append_self _ _
  have htxt : endsWithL (".txt".data) f.data = false := by
    rw [hshape]
    show endsWithL ['.', 't', 'x', 't'] (_ ++ ['.', 'j', 's', 'o', 'n']) = false
    unfold endsWithL
    rw [List.reverse_append]
    simp [startsWithL]
  have hnotmem : ∀ y ∈ FileMgr.listBlogPosts files, y ≠ f := by
    intro y hy hyf
    have hy' := (mem_sortStrDesc y _).mp hy
    have hp := List.of_mem_filter hy'
    rw [hyf] at hp
    rw [htxt] at hp
    exact Bool.false_ne_true hp
  have hlist : (FileMgr.listBlogPosts files).contains f = false :=
    contains_eq_false_of_forall_ne _ _ hnotmem
  have hclean : (FileMgr.cleanupDeletions keepCount files).contains f = false := by
    apply contains_eq_false_of_forall_ne
    intro y hy
    apply hnotmem
    by_cases h : (FileMgr.listBlogPosts files).length ≤ keepCount
    · simp [FileMgr.cleanupDeletions, h] at hy
    · simp only [FileMgr.cleanupDeletions, h, if_false] at hy
      exact List.mem_of_mem_drop hy
  exact ⟨hjson, htxt, hlist, hclean⟩

/-- A concrete analysis record with wordCount 1500, primary density 2%
(optimal), proper heading structure and readability score 80, as in the
claim's example. -/
def c3ExampleAnalysis : SEO.SEOAnalysis :=
  { wordCount := 1500
    keywordAnalysis :=
      { primary := { keyword := "python developer", count := 30, density := 2, optimal := true }
        related := []
        totalUniqueKeywords := 0 }
    headingStructure :=
      { h1 := 1, h2 := 2, h3 := 0, h4 := 0, total := 3, properStructure := true
        ratioVal := 3/5 }
    readability :=
      { sentences := 100, avgWordsPerSentence := 15, complexWordsPercentage := 5
        readabilityScore := 80, grade := "Excellent" }
    internalLinks := { count := 1, optimal := true, links := [] }
    contentStructure := { paragraphs := 10, lists := 5, avgParagraphLength := 150 } }

/-- C3: the SEO score is the sum of the four 25-point components of the
source; whenever the fed readability score lies in [0, 100] (which
`analyzeReadability` always guarantees, second conjunct) the total is in
[0, 100]; the grade thresholds behave exactly as claimed at
90/89/70/69/50/49; and the claim's example analysis scores 95 with
grade "A+". -/
theorem c3_seo_score_bounds_and_example :
    (∀ a : SEO.SEOAnalysis, 0 ≤ a.readability.readabilityScore →
      a.readability.readabilityScore ≤ 100 →
      0 ≤ (SEO.calculateSEOScore a).score ∧ (SEO.calculateSEOScore a).score ≤ 100) ∧
    (∀ content : String, 0 ≤ (SEO.analyzeReadability content).readabilityScore ∧
      (SEO.analyzeReadability content).readabilityScore ≤ 100) ∧
    (SEO.getSEOGrade 90 = "A+" ∧ SEO.getSEOGrade 89 = "A" ∧ SEO.getSEOGrade 70 = "B" ∧
     SEO.getSEOGrade 69 = "C" ∧ SEO.getSEOGrade 50 = "D" ∧ SEO.getSEOGrade 49 = "F") ∧
    (SEO.calculateSEOScore c3ExampleAnalysis).score = 95 ∧
    (SEO.calculateSEOScore c3ExampleAnalysis).grade = "A+" := by
  have hRound20 : jsRound ((80 : ℚ) / 100 * 25) = 20 := by
    apply jsRound_eq_of_bounds <;> norm_num
  have hRound20n : jsRound (20 : ℚ) = 20 := by
    apply jsRound_eq_of_bounds <;> norm_num
  refine ⟨?_, ?_, ?_, ?_, ?_⟩
  · intro a h0 h100
    have hcast0 : (0 : ℚ) ≤ (a.readability.readabilityScore : ℚ) := by exact_mod_cast h0
    have hcast100 : (a.readability.readabilityScore : ℚ) ≤ 100 := by exact_mod_cast h100
    have hr0 : 0 ≤ jsRound ((a.readability.readabilityScore : ℚ) / 100 * 25) := by
      apply jsRound_nonneg; positivity
    have hr25 : jsRound ((a.readability.readabilityScore : ℚ) / 100 * 25) ≤ 25 := by
      apply jsRound_le; linarith
    unfold SEO.calculateSEOScore
    constructor
    · dsimp only
      split_ifs <;> omega
    · dsimp only
      split_ifs <;> omega
  · intro content
    unfold SEO.analyzeReadability
    dsimp only
    set avgRaw : ℚ := if ((jsSplitRun isSentEndChar content.data).filter
        (fun s => (jsTrim s).length > 0)).length > 0 then
        ((((jsSplitRun isWsChar content.data).filter (fun w => w.length > 0)).length : ℚ)) /
        ((((jsSplitRun isSentEndChar content.data).filter
          (fun s => (jsTrim s).length > 0)).length : ℚ)) else 0 with havg
    set pctRaw : ℚ := if (((jsSplitRun isWsChar content.data).filter
        (fun w => w.length > 0)).length) > 0 then
        (((((jsSplitRun isWsChar content.data).filter (fun w => w.length > 0)).filter
          (fun w => w.length ≥ 7)).length : ℚ)) /
        ((((jsSplitRun isWsChar content.data).filter (fun w => w.length > 0)).length : ℚ)) * 100
        else 0 with hpct
    have havg0 : 0 ≤ avgRaw := by
      rw [havg]; split <;> positivity
    have hpct0 : 0 ≤ pctRaw := by
      rw [hpct]; split <;> positivity
    have hmax0 : (0 : ℚ) ≤ max 0 (100 - avgRaw - pctRaw) := le_max_left 0 _
    have hmax100 : max 0 (100 - avgRaw - pctRaw) ≤ 100 := by
      apply max_le <;> linarith
    exact ⟨jsRound_nonneg _ hmax0, jsRound_le _ _ hmax100⟩
  · refine ⟨?_, ?_, ?_, ?_, ?_, ?_⟩ <;> norm_num [SEO.getSEOGrade]
  · unfold SEO.calculateSEOScore c3ExampleAnalysis
    norm_num [hRound20n]
  · unfold SEO.calculateSEOScore c3ExampleAnalysis
    norm_num [hRound20n, SEO.getSEOGrade]

/-- C3 witness: the bound conjunct applied at the concrete example
analysis. -/
theorem c3_seo_score_bounds_and_example_witness :
    0 ≤ (SEO.calculateSEOScore c3ExampleAnalysis).score ∧
    (SEO.calculateSEOScore c3ExampleAnalysis).score ≤ 100 :=
  c3_seo_score_bounds_and_example.1 c3ExampleAnalysis (by norm_num [c3ExampleAnalysis])
    (by norm_num [c3ExampleAnalysis])

theorem mapGet_eq_none_of_not_mem {α : Type} (m : List (String × α)) (k : String)
    (h : k ∉ m.map Prod.fst) : Gemini.mapGet m k = none := by
  induction m with
  | nil => rfl
  | cons e rest ih =>
    simp only [List.map_cons, List.mem_cons] at h
    push_neg at h
    simp only [Gemini.mapGet]
    rw [if_neg (fun he => h.1 he.symm)]
    exact ih h.2

theorem mapGet_mapDelete_self {α : Type} (m : List (String × α)) (k : String)
    (h : (m.map Prod.fst).Nodup) : Gemini.mapGet (Gemini.mapDelete m k) k = none := by
  induction m with
  | nil => rfl
  | cons e rest ih =>
    simp only [List.map_cons, List.nodup_cons] at h
    simp only [Gemini.mapDelete]
    by_cases he : e.1 = k
    · rw [if_pos he]
      exact mapGet_eq_none_of_not_mem rest k (he ▸ h.1)
    · rw [if_neg he]
      simp only [Gemini.mapGet]
      rw [if_neg he]
      exact ih h.2

/-- C8: clearing a model's failures (what a successful parse does)
unblocks it in any state whose failure map has distinct keys (as every
reachable `Map` state does); and recording three failures for a model,
all within 15 minutes of the observation time, makes
`isModelTemporarilyBlocked` report `true` for it. -/
theorem c8_model_blocking :
    (∀ (failures : List (String × List Gemini.FailureRec)) (m : String) (now : ℤ),
      (failures.map Prod.fst).Nodup →
      Gemini.isModelTemporarilyBlocked (Gemini.clearModelFailure failures m) m now = false) ∧
    (∀ (m e1 e2 e3 : String) (t1 t2 t3 now : ℤ), t1 ≤ t2 → t2 ≤ t3 → t3 ≤ now →
      now - t1 < 900000 →
      Gemini.isModelTemporarilyBlocked
        (Gemini.recordModelFailure
          (Gemini.recordModelFailure (Gemini.recordModelFailure [] m t1 e1) m t2 e2) m t3 e3)
        m now = true) := by
  constructor
  · intro failures m now h
    unfold Gemini.isModelTemporarilyBlocked Gemini.clearModelFailure
    rw [mapGet_mapDelete_self failures m h]
    simp
  · intro m e1 e2 e3 t1 t2 t3 now h12 h23 h3n h1w
    have a11 : t1 - t1 < (3600000 : ℤ) := by linarith
    have a21 : t2 - t1 < (3600000 : ℤ) := by linarith
    have a22 : t2 - t2 < (3600000 : ℤ) := by linarith
    have a31 : t3 - t1 < (3600000 : ℤ) := by linarith
    have a32 : t3 - t2 < (3600000 : ℤ) := by linarith
    have a33 : t3 - t3 < (3600000 : ℤ) := by linarith
    have b1 : now - t1 < (900000 : ℤ) := h1w
    have b2 : now - t2 < (900000 : ℤ) := by linarith
    have b3 : now - t3 < (900000 : ℤ) := by linarith
    simp [Gemini.recordModelFailure, Gemini.mapGet, Gemini.mapSet,
      Gemini.isModelTemporarilyBlocked, List.filter_cons,
      a11, a21, a22, a31, a32, a33, b1, b2, b3]

/-- C8 witness: the blocking scenario at model `"gemini-2.5-flash"` with
failures at times 0, 1, 2 observed at time 3, and the clearing conjunct
at a one-entry failure map. -/
theorem c8_model_blocking_witness :
    Gemini.isModelTemporarilyBlocked
      (Gemini.clearModelFailure
        [("gemini-2.5-flash", [{ timestamp := 0, errMsg := "quota", errType := "quota" }])]
        ("gemini-2.5-flash")) ("gemini-2.5-flash") 3 = false ∧
    Gemini.isModelTemporarilyBlocked
      (Gemini.recordModelFailure
        (Gemini.recordModelFailure
          (Gemini.recordModelFailure [] ("gemini-2.5-flash") 0 ("quota"))
          ("gemini-2.5-flash") 1 ("quota"))
        ("gemini-2.5-flash") 2 ("quota"))
      ("gemini-2.5-flash") 3 = true :=
  ⟨c8_model_blocking.1 _ _ 3 (by decide),
   c8_model_blocking.2 ("gemini-2.5-flash") ("quota") ("quota") ("quota") 0 1 2 3
     (by norm_num) (by norm_num) (by norm_num) (by norm_num)⟩

/-- An external parse (schema-shaped JSON the model may legally return)
whose length constraint has `wordLimit: null` with
`constraintType: "exact"` and `hasCriticalLimit: true`. -/
def c9RawExternal : Gemini.RawWorkflow :=
  { contentType := some "blog-post"
    topic := some "tech jobs"
    audience := none
    lengthConstraints :=
      some { wordLimit := none, constraintType := "exact", priority := "critical"
             reasoning := "model omitted the number", hasCriticalLimit := true }
    styleConstraints := none
    contentConstraints := none
    seoConstraints := none
    conflictResolution := none }

/-- C9 counterexample: `validateAndEnhance` lets an external length
constraint with `wordLimit = null`, `constraintType = "exact"` and
`hasCriticalLimit = true` pass through unchanged when the local
extractor finds no limit in the instruction (here `"tech jobs"`), so the
claimed invariant — null only with flexible/non-critical — fails on the
external-parse path. -/
theorem c9_invariant_counterexample :
    (Gemini.validateAndEnhance c9RawExternal ("tech jobs") ("gemini-2.5-flash")
      ("2026-01-01T00:00:00.000Z")).lengthConstraints =
      some { wordLimit := none, constraintType := "exact", priority := "critical"
             reasoning := "model omitted the number", hasCriticalLimit := true } := by
  decide

/-- C9 (amended): the invariant does hold for every constraint produced
by the local extractor — and hence for the fallback workflow, whose
constraint is exactly the extractor's — but the external-parse path
does not guarantee it: `validateAndEnhance` delivers exactly the
backfill's result, and the backfill re-runs the local extractor when
the model-supplied word limit is falsy (null, NaN or 0), replacing the
supplied constraint only when the extractor finds a truthy limit; when
the extractor finds none the supplied object is kept as-is (the
counterexample), and a supplied constraint with a truthy limit is
always kept as-is. -/
theorem c9_local_extractor_invariant (instruction parsedAtIso : String) :
    ((Gemini.extractLengthConstraints instruction).wordLimit = none →
      (Gemini.extractLengthConstraints instruction).constraintType = "flexible" ∧
      (Gemini.extractLengthConstraints instruction).hasCriticalLimit = false) ∧
    (∀ lc, (Gemini.createFallbackWorkflow instruction parsedAtIso).lengthConstraints = some lc →
      lc.wordLimit = none →
      lc.constraintType = "flexible" ∧ lc.hasCriticalLimit = false) ∧
    (∀ (raw : Gemini.RawWorkflow) (modelUsed : String),
      (Gemini.validateAndEnhance raw instruction modelUsed parsedAtIso).lengthConstraints =
        Gemini.backfillLength raw.lengthConstraints instruction) ∧
    (∀ lc : Gemini.LengthConstraints,
      Gemini.jsNumTruthy (Gemini.extractLengthConstraints instruction).wordLimit = true →
      Gemini.jsNumTruthy lc.wordLimit = false →
      Gemini.backfillLength (some lc) instruction =
        some (Gemini.extractLengthConstraints instruction)) ∧
    (∀ lc : Gemini.LengthConstraints,
      Gemini.jsNumTruthy lc.wordLimit = false →
      Gemini.jsNumTruthy (Gemini.extractLengthConstraints instruction).wordLimit = false →
      Gemini.backfillLength (some lc) instruction = some lc) ∧
    (∀ lc : Gemini.LengthConstraints,
      Gemini.jsNumTruthy lc.wordLimit = true →
      Gemini.backfillLength (some lc) instruction = some lc) := by
  have key : ∀ r : Gemini.LengthConstraints, r = Gemini.extractLengthConstraints instruction →
      r.wordLimit = none →
      r.constraintType = "flexible" ∧ r.hasCriticalLimit = false := by
    intro r hr h
    subst hr
    unfold Gemini.extractLengthConstraints at h ⊢
    dsimp only at h ⊢
    cases hm1 : Gemini.firstMatch Gemini.exactMatchers (jsToLower instruction.data) with
    | some m => rw [hm1] at h; simp at h
    | none =>
      rw [hm1] at h
      dsimp only at h ⊢
      cases hm2 : Gemini.firstMatch Gemini.maxMatchers (jsToLower instruction.data) with
      | some m => rw [hm2] at h; simp at h
      | none =>
        rw [hm2] at h
        dsimp only at h ⊢
        cases hm3 : Gemini.firstMatch Gemini.minMatchers (jsToLower instruction.data) with
        | some m => rw [hm3] at h; simp at h
        | none =>
          rw [hm3] at h
          dsimp only at h ⊢
          cases hm4 : Gemini.firstMatch Gemini.flexibleMatchers (jsToLower instruction.data) with
          | some m => rw [hm4] at h; simp at h
          | none =>
            rw [hm4] at h
            dsimp only at h ⊢
            cases hm5 : Gemini.findDescriptor (jsToLower instruction.data)
                Gemini.lengthDescriptors with
            | some d =>
              obtain ⟨name, limit, ctype, prio⟩ := d
              rw [hm5] at h
              simp at h
            | none => exact ⟨rfl, rfl⟩
  refine ⟨key _ rfl, ?_, ?_, ?_, ?_, ?_⟩
  · intro lc hlc
    have heq : some (Gemini.extractLengthConstraints instruction) = some lc := by
      rw [← hlc]
      rfl
    exact key lc (Option.some_injective _ heq).symm
  · intro raw modelUsed
    rfl
  · intro lc h1 h2
    simp [Gemini.backfillLength, h1, h2]
  · intro lc h1 h2
    simp [Gemini.backfillLength, h1, h2]
  · intro lc h1
    simp [Gemini.backfillLength, h1]

/-- C9 witness: the amended invariant applied at the instruction
`"hello there"`, on which the extractor returns a null word limit; and
the keep-as-is backfill case at `"tech jobs"` with the counterexample's
null-limit exact/critical constraint, which the extractor (finding no
limit) leaves untouched. -/
theorem c9_local_extractor_invariant_witness :
    ((Gemini.extractLengthConstraints ("hello there")).constraintType = "flexible" ∧
      (Gemini.extractLengthConstraints ("hello there")).hasCriticalLimit = false) ∧
    Gemini.backfillLength
        (some { wordLimit := none, constraintType := "exact", priority := "critical"
                reasoning := "model omitted the number", hasCriticalLimit := true })
        ("tech jobs") =
      some { wordLimit := none, constraintType := "exact", priority := "critical"
             reasoning := "model omitted the number", hasCriticalLimit := true } :=
  ⟨(c9_local_extractor_invariant ("hello there") ("t")).1 (by decide),
   (c9_local_extractor_invariant ("tech jobs") ("t")).2.2.2.2.1
     { wordLimit := none, constraintType := "exact", priority := "critical"
       reasoning := "model omitted the number", hasCriticalLimit := true }
     (by decide) (by decide)⟩

theorem jsSplitRunAux_tokens (p : Char → Bool) :
    ∀ (l acc : List Char) (inSep : Bool), (∀ c ∈ acc, p c = false) →
      ∀ t ∈ jsSplitRunAux p inSep acc l, ∀ c ∈ t, p c = false := by
  intro l
  induction l with
  | nil =>
    intro acc inSep hacc t ht c hc
    simp only [jsSplitRunAux, List.mem_singleton] at ht
    subst ht
    exact hacc c (List.mem_reverse.mp hc)
  | cons d rest ih =>
    intro acc inSep hacc t ht c hc
    simp only [jsSplitRunAux] at ht
    by_cases hd : p d
    · rw [if_pos hd] at ht
      cases inSep with
      | true =>
        rw [if_pos rfl] at ht
        exact ih acc true hacc t ht c hc
      | false =>
        simp only [Bool.false_eq_true, if_false, List.mem_cons] at ht
        rcases ht with ht | ht
        · subst ht
          exact hacc c (List.mem_reverse.mp hc)
        · exact ih [] true (by simp) t ht c hc
    · rw [if_neg hd] at ht
      refine ih (d :: acc) false ?_ t ht c hc
      intro e he
      rcases List.mem_cons.mp he with he | he
      · subst he
        exact eq_false_of_ne_true hd
      · exact hacc e he

theorem startsWithL_mem (a b : List Char) (h : startsWithL a b = true) :
    ∀ x ∈ a, x ∈ b := by
  induction a generalizing b with
  | nil => simp
  | cons x xs ih =>
    cases b with
    | nil => simp [startsWithL] at h
    | cons y ys =>
      simp only [startsWithL, Bool.and_eq_true, beq_iff_eq] at h
      intro z hz
      rcases List.mem_cons.mp hz with hz | hz
      · subst hz
        rw [h.1]
        exact List.mem_cons_self y ys
      · exact List.mem_cons_of_mem y (ih ys h.2 z hz)

theorem containsSub_eq_false_of_missing (needle t : List Char) (c : Char)
    (hc : c ∈ needle) (ht : c ∉ t) : containsSub needle t = false := by
  induction t with
  | nil =>
    cases needle with
    | nil => simp at hc
    | cons x xs => rfl
  | cons d rest ih =>
    simp only [containsSub, Bool.or_eq_false_iff]
    constructor
    · by_contra hsw
      have := startsWithL_mem needle (d :: rest) (by simpa using Bool.of_not_eq_false hsw) c hc
      exact ht this
    · exact ih (fun hmem => ht (List.mem_cons_of_mem d hmem))

theorem jsToLowerChar_ws (c : Char) (h : isWsChar c = true) : jsToLowerChar c = c := by
  simp only [isWsChar, Bool.or_eq_true, decide_eq_true_eq] at h
  rcases h with ((((h | h) | h) | h) | h) | h <;> subst h <;> decide

/-- Whitespace-containing keywords can never be counted: the tokens of a
whitespace split contain no whitespace, so substring containment of a
keyword with a space always fails. -/
theorem countKeywordSimple_ws_keyword (content keyword : List Char) (c : Char)
    (hc : c ∈ keyword) (hws : isWsChar c = true) :
    SEO.countKeywordSimple content keyword = 0 := by
  unfold SEO.countKeywordSimple
  rw [List.length_eq_zero]
  rw [List.filter_eq_nil_iff]
  intro t ht
  have hpure := jsSplitRunAux_tokens isWsChar content [] false (by simp) t ht
  have : containsSub keyword t = false := by
    apply containsSub_eq_false_of_missing keyword t c hc
    intro hmem
    rw [hpure c hmem] at hws
    exact Bool.false_ne_true hws
  simp [this]

/-- Number of positions at which `needle` occurs in `l` (the reading of
"the keyword appears 15 times" in the claim's scenario; the scenario's
occurrences do not overlap, so any occurrence-counting convention
agrees). -/
def occurrencesOfAux (needle : List Char) : Nat → List Char → Nat
  | n, [] => n
  | n, c :: rest =>
    occurrencesOfAux needle (if startsWithL needle (c :: rest) then n + 1 else n) rest

/-- Occurrence counting entry point. -/
def occurrencesOf (needle l : List Char) : Nat := occurrencesOfAux needle 0 l

/-- The end-to-end body of the claim's scenario: a heading, then the
keyword `"Python developer"` 15 times, then filler, 1000 words in
all. -/
def c2Body : String :=
  String.mk (("# Remote Python Jobs\n\n".data) ++
    listJoinSep [' '] (List.replicate 15 ("Python developer".data)) ++ [' '] ++
    listJoinSep [' '] (List.replicate 966 ("aa".data)))

theorem c2_keyword_count_zero :
    SEO.countKeywordSimple (jsToLower c2Body.data) (jsToLower (("Python developer").data)) = 0 := by
  decide

theorem c2_total_words :
    ((jsSplitRun isWsChar (jsToLower c2Body.data)).filter (fun w => w.length > 0)).length
      = 1000 := by
  decide

theorem c2_primary_fields :
    (SEO.analyzeKeywords c2Body ("Python developer")).primary.count = 0 ∧
    (SEO.analyzeKeywords c2Body ("Python developer")).primary.density = 0 ∧
    (SEO.analyzeKeywords c2Body ("Python developer")).primary.optimal = false := by
  unfold SEO.analyzeKeywords
  dsimp only
  rw [c2_keyword_count_zero, c2_total_words]
  norm_num

theorem jsSplitRunAux_no_sep (p : Char → Bool) :
    ∀ (l acc : List Char) (inSep : Bool), (∀ c ∈ l, p c = false) →
      jsSplitRunAux p inSep acc l = [acc.reverse ++ l] := by
  intro l
  induction l with
  | nil => intro acc inSep _; simp [jsSplitRunAux]
  | cons c rest ih =>
    intro acc inSep h
    have hc : p c = false := h c (by simp)
    simp only [jsSplitRunAux, hc, Bool.false_eq_true, if_false]
    rw [ih (c :: acc) false (fun d hd => h d (List.mem_cons_of_mem c hd))]
    simp

theorem jsSplitRun_no_sep (p : Char → Bool) (l : List Char)
    (h : ∀ c ∈ l, p c = false) : jsSplitRun p l = [l] := by
  unfold jsSplitRun
  rw [jsSplitRunAux_no_sep p l [] false h]
  simp

theorem c2_no_sentence_enders : ∀ c ∈ c2Body.data, isSentEndChar c = false := by
  have h : c2Body.data.all (fun c => !isSentEndChar c) = true := by decide
  intro c hc
  have := (List.all_eq_true.mp h) c hc
  simpa using this

theorem c2_trim_nonempty : (jsTrim c2Body.data).length > 0 :=
  List.length_pos.mpr (by decide)

theorem c2_sentence_count :
    ((jsSplitRun isSentEndChar c2Body.data).filter (fun s => (jsTrim s).length > 0)).length
      = 1 := by
  rw [jsSplitRun_no_sep isSentEndChar c2Body.data c2_no_sentence_enders]
  simp [List.filter, c2_trim_nonempty]

theorem c2_word_count_raw :
    ((jsSplitRun isWsChar c2Body.data).filter (fun w => w.length > 0)).length = 1000 := by
  decide

theorem c2_complex_count :
    (((jsSplitRun isWsChar c2Body.data).filter (fun w => w.length > 0)).filter
      (fun w => w.length ≥ 7)).length = 15 := by
  decide

theorem c2_readability_score :
    (SEO.analyzeReadability c2Body).readabilityScore = 0 := by
  unfold SEO.analyzeReadability
  dsimp only
  rw [c2_sentence_count, c2_word_count_raw, c2_complex_count]
  norm_num
  apply jsRound_eq_of_bounds <;> norm_num

theorem c2_word_count_value : SEO.getWordCount c2Body = 1000 := by
  decide

theorem c2_proper_structure_false :
    (SEO.analyzeHeadingStructure c2Body).properStructure = false := by
  decide

theorem c2_suggestion_types :
    (SEO.generateOptimizationSuggestions
        (SEO.analyzeContent ("https://yoursite.com") c2Body ("Python developer"))).map
      SEO.Suggestion.suggType = ["content", "keywords", "structure", "readability"] := by
  unfold SEO.generateOptimizationSuggestions SEO.analyzeContent
  dsimp only
  rw [c2_primary_fields.2.1, c2_primary_fields.2.2, c2_readability_score,
    c2_word_count_value, c2_proper_structure_false]
  norm_num

/-- C2 counterexample: on a 1000-word body in which the primary keyword
`"Python developer"` appears exactly 15 times, the computed primary
density is 0% (not 1.5%), it is not marked optimal, and the generated
suggestions do contain a keyword suggestion — a token produced by a
whitespace split can never contain the two-word keyword as a
substring. -/
theorem c2_scenario_counterexample :
    occurrencesOf (("Python developer").data) c2Body.data = 15 ∧
    SEO.getWordCount c2Body = 1000 ∧
    (SEO.analyzeKeywords c2Body ("Python developer")).primary.density = 0 ∧
    (SEO.analyzeKeywords c2Body ("Python developer")).primary.optimal = false ∧
    ((SEO.generateOptimizationSuggestions
        (SEO.analyzeContent ("https://yoursite.com") c2Body ("Python developer"))).map
      SEO.Suggestion.suggType).contains ("keywords") = true := by
  refine ⟨by decide, c2_word_count_value, c2_primary_fields.2.1, c2_primary_fields.2.2, ?_⟩
  rw [c2_suggestion_types]
  decide

/-- C2 (amended): keyword occurrence counting is case-insensitive
substring containment on whitespace-split tokens (first conjunct:
whitespace-containing keywords therefore never match any token; second
conjunct: the containment over-counts compound words such as
"developers"); consequently, on the claim's 1000-word scenario body the
primary count and density are 0 and the suggestion list contains a
content suggestion, a keywords suggestion, a structure suggestion and a
readability suggestion, in that order. -/
theorem c2_keyword_counting_amended :
    (∀ content keyword : String, keyword.data.any isWsChar = true →
      (SEO.analyzeKeywords content keyword).primary.count = 0) ∧
    (SEO.analyzeKeywords ("Developers build apps") ("developer")).primary.count = 1 ∧
    (SEO.analyzeKeywords c2Body ("Python developer")).primary.count = 0 ∧
    (SEO.analyzeKeywords c2Body ("Python developer")).primary.density = 0 ∧
    ((SEO.generateOptimizationSuggestions
        (SEO.analyzeContent ("https://yoursite.com") c2Body ("Python developer"))).map
      SEO.Suggestion.suggType) = ["content", "keywords", "structure", "readability"] := by
  refine ⟨?_, by decide, c2_primary_fields.1, c2_primary_fields.2.1, c2_suggestion_types⟩
  intro content keyword h
  obtain ⟨c, hc, hcws⟩ := List.any_eq_true.mp h
  have hcws' : isWsChar c = true := by simpa using hcws
  unfold SEO.analyzeKeywords
  dsimp only
  apply countKeywordSimple_ws_keyword _ _ c
  · have : jsToLowerChar c ∈ jsToLower keyword.data := List.mem_map_of_mem jsToLowerChar hc
    rwa [jsToLowerChar_ws c hcws'] at this
  · exact hcws'

/-- C2 witness: the whitespace-keyword conjunct applied at a concrete
content and keyword. -/
theorem c2_keyword_counting_amended_witness :
    (SEO.analyzeKeywords ("aa bb") ("a b")).primary.count = 0 :=
  c2_keyword_counting_amended.1 ("aa bb") ("a b") (by decide)

/-- Number of maximal separator runs, starting in the given state
(`true` = currently inside a separator run).  The length of a JavaScript
regex split is one more than this count. -/
def sepRuns (p : Char → Bool) : Bool → List Char → Nat
  | _, [] => 0
  | inSep, c :: rest =>
    if p c then
      if inSep then sepRuns p true rest else 1 + sepRuns p true rest
    else sepRuns p false rest

theorem jsSplitRunAux_length (p : Char → Bool) :
    ∀ (l acc : List Char) (inSep : Bool),
      (jsSplitRunAux p inSep acc l).length = 1 + sepRuns p inSep l := by
  intro l
  induction l with
  | nil => intro acc inSep; simp [jsSplitRunAux, sepRuns]
  | cons c rest ih =>
    intro acc inSep
    by_cases hc : p c
    · cases inSep with
      | true => simp [jsSplitRunAux, sepRuns, hc, ih]
      | false => simp [jsSplitRunAux, sepRuns, hc, ih]; omega
    · simp [jsSplitRunAux, sepRuns, hc, ih]

theorem jsSplitRun_length (p : Char → Bool) (l : List Char) :
    (jsSplitRun p l).length = 1 + sepRuns p false l :=
  jsSplitRunAux_length p l [] false

theorem sepRuns_of_no_sep (p : Char → Bool) :
    ∀ (l : List Char) (st : Bool), (∀ c ∈ l, p c = false) → sepRuns p st l = 0 := by
  intro l
  induction l with
  | nil => intro st _; rfl
  | cons c rest ih =>
    intro st h
    have hc : p c = false := h c (by simp)
    simp [sepRuns, hc]
    exact ih false (fun d hd => h d (List.mem_cons_of_mem c hd))

theorem sepRuns_take_le (p : Char → Bool) :
    ∀ (l : List Char) (k : Nat) (st : Bool), sepRuns p st (l.take k) ≤ sepRuns p st l := by
  intro l
  induction l with
  | nil => intro k st; simp
  | cons c rest ih =>
    intro k st
    cases k with
    | zero => simp [sepRuns]
    | succ k' =>
      simp only [List.take_succ_cons]
      by_cases hc : p c
      · cases st with
        | true => simp [sepRuns, hc]; exact ih k' true
        | false => simp [sepRuns, hc]; exact ih k' true
      · simp [sepRuns, hc]; exact ih k' false

theorem sepRuns_true_le_false (p : Char → Bool) :
    ∀ l : List Char, sepRuns p true l ≤ sepRuns p false l := by
  intro l
  cases l with
  | nil => simp [sepRuns]
  | cons c rest =>
    by_cases hc : p c
    · simp [sepRuns, hc]
    · simp [sepRuns, hc]

theorem sepRuns_false_le_one_add_true (p : Char → Bool) :
    ∀ l : List Char, sepRuns p false l ≤ 1 + sepRuns p true l := by
  intro l
  cases l with
  | nil => simp [sepRuns]
  | cons c rest =>
    by_cases hc : p c
    · simp [sepRuns, hc]
    · simp [sepRuns, hc]

theorem sepRuns_drop_le (p : Char → Bool) :
    ∀ (l : List Char) (j : Nat), sepRuns p false (l.drop j) ≤ sepRuns p false l := by
  intro l
  induction l with
  | nil => intro j; simp
  | cons c rest ih =>
    intro j
    cases j with
    | zero => simp
    | succ j' =>
      simp only [List.drop_succ_cons]
      calc sepRuns p false (rest.drop j') ≤ sepRuns p false rest := ih j'
        _ ≤ sepRuns p false (c :: rest) := by
          by_cases hc : p c
          · simp [sepRuns, hc]
            have := sepRuns_false_le_one_add_true p rest
            omega
          · simp [sepRuns, hc]

theorem sepRuns_wsfree_append (p : Char → Bool) :
    ∀ (x l : List Char), (∀ c ∈ x, p c = false) →
      sepRuns p false (x ++ l) = sepRuns p false l := by
  intro x
  induction x with
  | nil => intro l _; simp
  | cons c rest ih =>
    intro l h
    have hc : p c = false := h c (by simp)
    simp [sepRuns, hc]
    exact ih l (fun d hd => h d (List.mem_cons_of_mem c hd))

theorem sepRuns_join_le (p : Char → Bool) (sep : Char) (hsep : p sep = true) :
    ∀ ts : List (List Char), (∀ t ∈ ts, ∀ c ∈ t, p c = false) →
      sepRuns p false (listJoinSep [sep] ts) + 1 ≤ max 1 ts.length := by
  intro ts
  induction ts with
  | nil => intro _; simp [listJoinSep, sepRuns]
  | cons x rest ih =>
    intro h
    cases rest with
    | nil =>
      simp only [listJoinSep]
      rw [sepRuns_of_no_sep p x false (h x (by simp))]
      simp
    | cons y rest' =>
      simp only [listJoinSep]
      rw [List.append_assoc] at *
      rw [sepRuns_wsfree_append p x _ (h x (by simp))]
      have hstep : sepRuns p false ([sep] ++ listJoinSep [sep] (y :: rest'))
          ≤ 1 + sepRuns p false (listJoinSep [sep] (y :: rest')) := by
        simp [sepRuns, hsep]
        exact sepRuns_true_le_false p _
      have hih := ih (fun t ht c hc => h t (List.mem_cons_of_mem x ht) c hc)
      simp only [List.length_cons] at *
      omega

theorem sepRuns_jsTrim_le (l : List Char) :
    sepRuns isWsChar false (jsTrim l) ≤ sepRuns isWsChar false l := by
  unfold jsTrim
  have hsuf : l.dropWhile isWsChar <:+ l := List.dropWhile_suffix _
  have h1 : sepRuns isWsChar false (l.dropWhile isWsChar) ≤ sepRuns isWsChar false l := by
    have hdrop := List.suffix_iff_eq_drop.mp hsuf
    rw [hdrop]
    exact sepRuns_drop_le _ l _
  have hpre : ((l.dropWhile isWsChar).reverse.dropWhile isWsChar).reverse
      <+: l.dropWhile isWsChar := by
    have := List.reverse_prefix.mpr (List.dropWhile_suffix (l := (l.dropWhile isWsChar).reverse)
      isWsChar)
    simpa using this
  have h2 : sepRuns isWsChar false (((l.dropWhile isWsChar).reverse.dropWhile isWsChar).reverse)
      ≤ sepRuns isWsChar false (l.dropWhile isWsChar) := by
    rw [List.prefix_iff_eq_take.mp hpre]
    exact sepRuns_take_le _ _ _ _
  exact le_trans h2 h1

theorem countWords_le_one_add_sepRuns (x : List Char) :
    ContentGen.countWords (String.mk x) ≤ 1 + sepRuns isWsChar false x := by
  unfold ContentGen.countWords
  dsimp only
  rw [jsSplitRun_length]
  have := sepRuns_jsTrim_le x
  omega

theorem lastIdxAux_take_getLast (c : Char) :
    ∀ (l : List Char) (i : Nat), lastIdxAux c l = some i →
      (l.take (i + 1)).getLast? = some c := by
  intro l
  induction l with
  | nil => intro i h; simp [lastIdxAux] at h
  | cons x xs ih =>
    intro i h
    simp only [lastIdxAux] at h
    cases hxs : lastIdxAux c xs with
    | some j =>
      rw [hxs] at h
      have hi : i = j + 1 := by
        injection h with h'
        omega
      subst hi
      cases xs with
      | nil => simp [lastIdxAux] at hxs
      | cons y ys =>
        have hih := ih j hxs
        have hsplit : List.take (j + 1) (y :: ys) = y :: List.take j ys := by
          simp [List.take_succ_cons]
        rw [hsplit] at hih
        simp only [List.take_succ_cons, hsplit]
        rw [List.getLast?_cons_cons]
        exact hih
    | none =>
      rw [hxs] at h
      by_cases hx : x = c
      · rw [if_pos hx] at h
        have hi : i = 0 := by injection h with h'; omega
        subst hi
        simp [hx]
      · rw [if_neg hx] at h
        exact absurd h (by simp)

/-- The truncation `words.slice(0, wordLimit).join(" ")` that
`trimToWordLimit` produces before the sentence-boundary cut. -/
def truncationOf (content : String) (limit : Nat) : List Char :=
  listJoinSep [' '] ((jsSplitRun isWsChar (jsTrim content.data)).take limit)

theorem endsWithL_of_getLast (x : List Char) (c : Char) (h : x.getLast? = some c) :
    endsWithL [c] x = true := by
  unfold endsWithL
  have hrev : x.reverse.head? = some c := by
    rw [List.head?_reverse]
    exact h
  cases hx : x.reverse with
  | nil => rw [hx] at hrev; simp at hrev
  | cons d t =>
    rw [hx] at hrev
    simp only [List.head?_cons, Option.some.injEq] at hrev
    subst hrev
    simp [startsWithL]

theorem countWords_pos (content : String) : 1 ≤ ContentGen.countWords content := by
  unfold ContentGen.countWords
  rw [jsSplitRun_length]
  omega

theorem jsLeNum_nat (n limit : Nat) :
    ContentGen.jsLeNum n (some (JsNum.num (limit : Int))) = decide (n ≤ limit) := by
  simp [ContentGen.jsLeNum]

theorem jsSliceEnd_nat {α : Type} (l : List α) (limit : Nat) :
    ContentGen.jsSliceEnd l (some (JsNum.num (limit : Int))) = l.take limit := by
  simp [ContentGen.jsSliceEnd]

theorem trimToWordLimit_of_le (content : String) (limit : Nat)
    (h : ContentGen.countWords content ≤ limit) :
    ContentGen.trimToWordLimit content (some (JsNum.num (limit : Int))) = content := by
  unfold ContentGen.trimToWordLimit
  dsimp only
  rw [jsLeNum_nat]
  rw [if_pos (by simpa using h)]

theorem trimToWordLimit_of_over (content : String) (limit : Nat)
    (h : limit < ContentGen.countWords content) :
    ContentGen.trimToWordLimit content (some (JsNum.num (limit : Int))) =
      (let r := truncationOf content limit
       let lastSentence := jsLastIndexOfChar '.' r
       if 5 * lastSentence > 4 * (r.length : Int) then
         String.mk (r.take (lastSentence + 1).toNat)
       else String.mk r) := by
  unfold ContentGen.trimToWordLimit
  dsimp only
  rw [jsLeNum_nat]
  rw [if_neg (by simpa using Nat.not_le.mpr h)]
  rw [jsSliceEnd_nat]
  rfl

theorem truncation_sepRuns (content : String) (limit : Nat)
    (h : limit < ContentGen.countWords content) (h1 : 1 ≤ limit) :
    sepRuns isWsChar false (truncationOf content limit) + 1 ≤ limit := by
  unfold truncationOf
  have htok : ∀ t ∈ (jsSplitRun isWsChar (jsTrim content.data)).take limit,
      ∀ c ∈ t, isWsChar c = false := by
    intro t ht c hc
    exact jsSplitRunAux_tokens isWsChar (jsTrim content.data) [] false (by simp) t
      (List.take_subset _ _ ht) c hc
  have hjoin := sepRuns_join_le isWsChar ' ' (by decide) _ htok
  have hlen : ((jsSplitRun isWsChar (jsTrim content.data)).take limit).length = limit := by
    rw [List.length_take]
    have : limit < (jsSplitRun isWsChar (jsTrim content.data)).length := h
    omega
  rw [hlen] at hjoin
  omega

theorem countWords_trim_le (content : String) (limit : Nat) (h1 : 1 ≤ limit) :
    ContentGen.countWords
      (ContentGen.trimToWordLimit content (some (JsNum.num (limit : Int)))) ≤ limit := by
  by_cases hcase : ContentGen.countWords content ≤ limit
  · rw [trimToWordLimit_of_le content limit hcase]
    exact hcase
  · have hover : limit < ContentGen.countWords content := Nat.not_le.mp hcase
    rw [trimToWordLimit_of_over content limit hover]
    have hbound := truncation_sepRuns content limit hover h1
    dsimp only
    split
    · calc ContentGen.countWords (String.mk ((truncationOf content limit).take _))
          ≤ 1 + sepRuns isWsChar false ((truncationOf content limit).take _) :=
            countWords_le_one_add_sepRuns _
        _ ≤ 1 + sepRuns isWsChar false (truncationOf content limit) := by
            have := sepRuns_take_le isWsChar (truncationOf content limit)
              ((jsLastIndexOfChar '.' (truncationOf content limit)) + 1).toNat false
            omega
        _ ≤ limit := by omega
    · calc ContentGen.countWords (String.mk (truncationOf content limit))
          ≤ 1 + sepRuns isWsChar false (truncationOf content limit) :=
            countWords_le_one_add_sepRuns _
        _ ≤ limit := by omega

theorem trimToWordLimit_zero (content : String) :
    ContentGen.trimToWordLimit content (some (JsNum.num ((0 : Nat) : Int))) = String.mk [] := by
  rw [trimToWordLimit_of_over content 0 (countWords_pos content)]
  dsimp only
  unfold truncationOf
  simp [listJoinSep, jsLastIndexOfChar, lastIdxAux]

/-- C5: trimming returns any body whose word count is within the limit
unchanged; trimming is idempotent; for a positive limit the output's
word count never exceeds the limit; when trimming does truncate, the
output is a prefix of the first-`limit`-words truncation, and it is cut
back exactly when the truncation's last period sits past 80% of the
truncation's length (`lastSentence > result.length * 0.8`, embedded as
`4 * length < 5 * lastSentence`): in that case the output is the
truncation up to and including that last period, so it ends in `"."`;
when the last period sits at or before the 80% mark — or there is no
period, `lastIndexOf` returning `-1` — the output is the whole
truncation, uncut; and the orchestrator applies the trim exactly when
the constraint is a critical maximum whose limit the delivered word
count exceeds, marking `trimmed` in that case and passing the content
through otherwise. -/
theorem c5_trimming (content : String) (limit : Nat) :
    (ContentGen.countWords content ≤ limit →
      ContentGen.trimToWordLimit content (some (JsNum.num (limit : Int))) = content) ∧
    (1 ≤ limit →
      ContentGen.countWords
        (ContentGen.trimToWordLimit content (some (JsNum.num (limit : Int)))) ≤ limit) ∧
    (ContentGen.trimToWordLimit
        (ContentGen.trimToWordLimit content (some (JsNum.num (limit : Int))))
        (some (JsNum.num (limit : Int))) =
      ContentGen.trimToWordLimit content (some (JsNum.num (limit : Int)))) ∧
    (limit < ContentGen.countWords content →
      ((ContentGen.trimToWordLimit content (some (JsNum.num (limit : Int)))).data
          <+: truncationOf content limit ∧
        (4 * ((truncationOf content limit).length : Int) <
            5 * jsLastIndexOfChar '.' (truncationOf content limit) →
          (ContentGen.trimToWordLimit content (some (JsNum.num (limit : Int)))).data =
            (truncationOf content limit).take
              (jsLastIndexOfChar '.' (truncationOf content limit) + 1).toNat ∧
          endsWithL ['.']
            (ContentGen.trimToWordLimit content (some (JsNum.num (limit : Int)))).data
            = true) ∧
        (5 * jsLastIndexOfChar '.' (truncationOf content limit) ≤
            4 * ((truncationOf content limit).length : Int) →
          (ContentGen.trimToWordLimit content (some (JsNum.num (limit : Int)))).data =
            truncationOf content limit))) ∧
    (∀ (lc : Gemini.LengthConstraints) (c : String) (wc0 : Nat),
      ((ContentGen.generateWorkflowPostProcess (some lc) c wc0).trimmed = true ↔
        (lc.hasCriticalLimit = true ∧ lc.constraintType = "maximum" ∧
          ContentGen.jsGtNum (ContentGen.countWords c) lc.wordLimit = true)) ∧
      ((ContentGen.generateWorkflowPostProcess (some lc) c wc0).trimmed = true →
        (ContentGen.generateWorkflowPostProcess (some lc) c wc0).content =
          ContentGen.trimToWordLimit c lc.wordLimit) ∧
      ((ContentGen.generateWorkflowPostProcess (some lc) c wc0).trimmed = false →
        (ContentGen.generateWorkflowPostProcess (some lc) c wc0).content = c)) := by
  refine ⟨trimToWordLimit_of_le content limit, countWords_trim_le content limit, ?_, ?_, ?_⟩
  · by_cases h1 : 1 ≤ limit
    · by_cases hcase : ContentGen.countWords content ≤ limit
      · rw [trimToWordLimit_of_le content limit hcase,
          trimToWordLimit_of_le content limit hcase]
      · exact trimToWordLimit_of_le _ limit (countWords_trim_le content limit h1)
    · have h0 : limit = 0 := by omega
      subst h0
      rw [trimToWordLimit_zero content, trimToWordLimit_zero (String.mk [])]
  · intro hover
    rw [trimToWordLimit_of_over content limit hover]
    dsimp only
    cases hli : lastIdxAux '.' (truncationOf content limit) with
    | none =>
      have hneg : jsLastIndexOfChar '.' (truncationOf content limit) = -1 := by
        simp [jsLastIndexOfChar, hli]
      rw [hneg]
      rw [if_neg (by
        have := Int.natCast_nonneg (truncationOf content limit).length
        omega)]
      refine ⟨List.prefix_rfl, ?_, fun _ => rfl⟩
      intro hc
      exact absurd hc (by
        have := Int.natCast_nonneg (truncationOf content limit).length
        omega)
    | some i =>
      have hjs : jsLastIndexOfChar '.' (truncationOf content limit) = (i : Int) := by
        simp [jsLastIndexOfChar, hli]
      rw [hjs]
      by_cases hcond : 5 * (i : Int) > 4 * ((truncationOf content limit).length : Int)
      · rw [if_pos hcond]
        have htoNat : ((i : Int) + 1).toNat = i + 1 := by omega
        rw [htoNat]
        refine ⟨List.take_prefix _ _, fun _ => ⟨rfl, ?_⟩, fun hle => absurd hcond (by omega)⟩
        exact endsWithL_of_getLast _ '.' (lastIdxAux_take_getLast '.' _ i hli)
      · rw [if_neg hcond]
        refine ⟨List.prefix_rfl, ?_, fun _ => rfl⟩
        intro hc
        exact absurd hc (by omega)
  · intro lc c wc0
    unfold ContentGen.generateWorkflowPostProcess
    by_cases h1 : lc.hasCriticalLimit = true
    · by_cases h2 : lc.constraintType = "maximum"
      · by_cases h3 : ContentGen.jsGtNum (ContentGen.countWords c) lc.wordLimit = true
        · simp [h1, h2, h3]
        · simp [h1, h2, h3]
      · simp [h1, h2]
    · have h1' : lc.hasCriticalLimit = false := by simpa using h1
      simp [h1']

/-- C5 witness: the under-limit and bound conjuncts at concrete bodies;
the sentence cut on `"aaaa bbbb cccc dddd. x y"` trimmed to 5 words,
whose truncation's last period (index 19 of 22) sits past 80%, so the
output is cut right after it and ends in `"."`; and the uncut case on
`"a. bbbb cccc"` trimmed to 2 words, whose period (index 1 of 7) sits
before 80%, so the output is the whole truncation. -/
theorem c5_trimming_witness :
    ContentGen.trimToWordLimit ("a b") (some (JsNum.num ((5 : Nat) : Int))) = ("a b") ∧
    ContentGen.countWords
      (ContentGen.trimToWordLimit ("a b c") (some (JsNum.num ((1 : Nat) : Int)))) ≤ 1 ∧
    ((ContentGen.trimToWordLimit ("aaaa bbbb cccc dddd. x y")
          (some (JsNum.num ((5 : Nat) : Int)))).data =
        (truncationOf ("aaaa bbbb cccc dddd. x y") 5).take
          (jsLastIndexOfChar '.' (truncationOf ("aaaa bbbb cccc dddd. x y") 5) + 1).toNat ∧
      endsWithL ['.']
        (ContentGen.trimToWordLimit ("aaaa bbbb cccc dddd. x y")
          (some (JsNum.num ((5 : Nat) : Int)))).data = true) ∧
    (ContentGen.trimToWordLimit ("a. bbbb cccc")
        (some (JsNum.num ((2 : Nat) : Int)))).data =
      truncationOf ("a. bbbb cccc") 2 :=
  ⟨(c5_trimming ("a b") 5).1 (by decide),
   (c5_trimming ("a b c") 1).2.1 (by norm_num),
   ((c5_trimming ("aaaa bbbb cccc dddd. x y") 5).2.2.2.1 (by decide)).2.1 (by decide),
   ((c5_trimming ("a. bbbb cccc") 2).2.2.2.1 (by decide)).2.2 (by decide)⟩

theorem mapGet_mapSet_self {α : Type} (m : List (String × α)) (k : String) (v : α) :
    Gemini.mapGet (Gemini.mapSet m k v) k = some v := by
  induction m with
  | nil => simp [Gemini.mapSet, Gemini.mapGet]
  | cons e rest ih =>
    by_cases he : e.1 = k
    · simp [Gemini.mapSet, Gemini.mapGet, he]
    · simp only [Gemini.mapSet]
      rw [if_neg he]
      simp only [Gemini.mapGet]
      rw [if_neg he]
      exact ih

theorem mapGet_mapSet_ne {α : Type} (m : List (String × α)) (k k' : String) (v : α)
    (h : k' ≠ k) : Gemini.mapGet (Gemini.mapSet m k v) k' = Gemini.mapGet m k' := by
  induction m with
  | nil =>
    simp only [Gemini.mapSet, Gemini.mapGet]
    rw [if_neg (fun he => h he.symm)]
  | cons e rest ih =>
    by_cases he : e.1 = k
    · simp only [Gemini.mapSet]
      rw [if_pos he]
      simp only [Gemini.mapGet]
      rw [if_neg (fun h' : k = k' => h h'.symm),
        if_neg (fun h' : e.1 = k' => h (h'.symm.trans he))]
    · simp only [Gemini.mapSet]
      rw [if_neg he]
      simp only [Gemini.mapGet]
      by_cases he' : e.1 = k'
      · rw [if_pos he', if_pos he']
      · rw [if_neg he', if_neg he']
        exact ih

theorem mapSet_fresh {α : Type} (m : List (String × α)) (k : String) (v : α)
    (h : k ∉ m.map Prod.fst) : Gemini.mapSet m k v = m ++ [(k, v)] := by
  induction m with
  | nil => rfl
  | cons e rest ih =>
    simp only [List.map_cons, List.mem_cons] at h
    push_neg at h
    simp only [Gemini.mapSet]
    rw [if_neg (fun he => h.1 he.symm)]
    rw [ih h.2]
    rfl

theorem mapSet_length_of_mem {α : Type} (m : List (String × α)) (k : String) (v : α)
    (h : k ∈ m.map Prod.fst) : (Gemini.mapSet m k v).length = m.length := by
  induction m with
  | nil => simp at h
  | cons e rest ih =>
    simp only [List.map_cons, List.mem_cons] at h
    by_cases he : e.1 = k
    · simp [Gemini.mapSet, he]
    · simp only [Gemini.mapSet]
      rw [if_neg he]
      have hrest : k ∈ rest.map Prod.fst := by
        rcases h with h | h
        · exact absurd h.symm he
        · exact h
      simp [ih hrest]

theorem mapGet_append_fresh {α : Type} (m : List (String × α)) (k : String) (v : α)
    (h : k ∉ m.map Prod.fst) : Gemini.mapGet (m ++ [(k, v)]) k = some v := by
  induction m with
  | nil => simp [Gemini.mapGet]
  | cons e rest ih =>
    simp only [List.map_cons, List.mem_cons] at h
    push_neg at h
    simp only [List.cons_append, Gemini.mapGet]
    rw [if_neg (fun he => h.1 he.symm)]
    exact ih h.2

theorem cacheResult_length (cache : List (String × Gemini.Workflow)) (instr : String)
    (w : Gemini.Workflow) (h : cache.length ≤ 50) :
    (Gemini.cacheResult cache instr w).length ≤ 50 := by
  unfold Gemini.cacheResult
  dsimp only
  by_cases hk : Gemini.normalizeKey instr ∈ cache.map Prod.fst
  · have hlen := mapSet_length_of_mem cache (Gemini.normalizeKey instr) w hk
    rw [if_neg (by omega)]
    omega
  · rw [mapSet_fresh cache _ w hk]
    by_cases hlen : cache.length + 1 > 50
    · rw [List.length_append]
      simp only [List.length_singleton]
      rw [if_pos (by simpa using hlen)]
      cases cache with
      | nil => simp at hlen
      | cons e cs =>
        simp only [List.cons_append]
        simp only [Gemini.mapDelete, if_pos rfl]
        simp at h ⊢
        omega
    · rw [List.length_append]
      simp only [List.length_singleton]
      rw [if_neg (by simpa using hlen)]
      simp
      omega

theorem cacheResult_evict (cache : List (String × Gemini.Workflow)) (instr : String)
    (w : Gemini.Workflow) (h50 : cache.length = 50)
    (hfresh : Gemini.normalizeKey instr ∉ cache.map Prod.fst) :
    Gemini.cacheResult cache instr w = cache.tail ++ [(Gemini.normalizeKey instr, w)] := by
  unfold Gemini.cacheResult
  dsimp only
  rw [mapSet_fresh cache _ w hfresh]
  rw [List.length_append]
  simp only [List.length_singleton]
  rw [if_pos (by omega)]
  cases cache with
  | nil => simp at h50
  | cons e cs =>
    simp only [List.cons_append]
    simp only [Gemini.mapDelete, if_pos rfl]
    rfl

theorem cacheResult_get (cache : List (String × Gemini.Workflow)) (instr : String)
    (w : Gemini.Workflow) (h : cache.length ≤ 50) :
    Gemini.getCachedParsing (Gemini.cacheResult cache instr w) instr = some w := by
  unfold Gemini.getCachedParsing Gemini.cacheResult
  dsimp only
  by_cases hk : Gemini.normalizeKey instr ∈ cache.map Prod.fst
  · have hlen := mapSet_length_of_mem cache (Gemini.normalizeKey instr) w hk
    rw [if_neg (by omega)]
    exact mapGet_mapSet_self cache _ w
  · rw [mapSet_fresh cache _ w hk]
    rw [List.length_append]
    simp only [List.length_singleton]
    by_cases hlen : cache.length + 1 > 50
    · rw [if_pos (by simpa using hlen)]
      cases cache with
      | nil => simp at hlen
      | cons e cs =>
        simp only [List.cons_append]
        simp only [Gemini.mapDelete, if_pos rfl]
        have hfresh' : Gemini.normalizeKey instr ∉ cs.map Prod.fst := by
          intro hmem
          exact hk (by simp [hmem])
        exact mapGet_append_fresh cs _ w hfresh'
    · rw [if_neg (by simpa using hlen)]
      exact mapGet_append_fresh cache _ w hk

theorem isBlocked_record_mono (fs : List (String × List Gemini.FailureRec))
    (m m' : String) (now : ℤ) (e : String)
    (h : Gemini.isModelTemporarilyBlocked fs m' now = true) :
    Gemini.isModelTemporarilyBlocked (Gemini.recordModelFailure fs m now e) m' now = true := by
  by_cases hmm : m' = m
  · subst hmm
    unfold Gemini.isModelTemporarilyBlocked at h ⊢
    unfold Gemini.recordModelFailure
    dsimp only
    rw [mapGet_mapSet_self]
    simp only [Option.getD_some]
    simp only [decide_eq_true_eq] at h ⊢
    rw [List.filter_filter, List.filter_append, List.length_append]
    have hcong :
        (List.filter (fun f => decide (now - f.timestamp < 900000) &&
          decide (now - f.timestamp < 3600000)) ((Gemini.mapGet fs m').getD [])).length =
        (List.filter (fun f => decide (now - f.timestamp < 900000))
          ((Gemini.mapGet fs m').getD [])).length := by
      congr 1
      apply List.filter_congr
      intro f _
      by_cases hf : now - f.timestamp < 900000
      · simp [hf]
        omega
      · simp [hf]
    rw [hcong]
    omega
  · unfold Gemini.isModelTemporarilyBlocked at h ⊢
    unfold Gemini.recordModelFailure
    dsimp only
    rw [mapGet_mapSet_ne _ _ _ _ hmm]
    exact h

theorem parseLoop_ok (jsParse : String → Except String Gemini.RawWorkflow)
    (oracle : String → Gemini.ModelOutcome) (nowMs : ℤ) (parsedAtIso instruction : String) :
    ∀ (chain : List String) (st : Gemini.ParserState),
      ∃ w, (Gemini.parseLoop jsParse oracle nowMs parsedAtIso instruction chain st).1 =
        Except.ok w := by
  intro chain
  induction chain with
  | nil =>
    intro st
    exact ⟨Gemini.createFallbackWorkflow instruction parsedAtIso, rfl⟩
  | cons m rest ih =>
    intro st
    simp only [Gemini.parseLoop]
    by_cases hb : Gemini.isModelTemporarilyBlocked st.modelFailures m nowMs = true
    · rw [if_pos hb]
      exact ih st
    · rw [if_neg hb]
      cases htry : Gemini.tryModelParsing jsParse oracle m instruction parsedAtIso with
      | ok ow =>
        cases ow with
        | some w => exact ⟨w, rfl⟩
        | none => exact ih st
      | error e => exact ih _

theorem parseLoop_all_fail (jsParse : String → Except String Gemini.RawWorkflow)
    (oracle : String → Gemini.ModelOutcome) (nowMs : ℤ) (parsedAtIso instruction : String) :
    ∀ (chain : List String) (st : Gemini.ParserState),
      (∀ m ∈ chain,
        Gemini.isModelTemporarilyBlocked st.modelFailures m nowMs = true ∨
        (∃ msg, oracle m = Gemini.ModelOutcome.throwErr msg) ∨
        (∃ t, oracle m = Gemini.ModelOutcome.respond t ∧
          Gemini.parseAndValidateJSON jsParse t = none)) →
      (Gemini.parseLoop jsParse oracle nowMs parsedAtIso instruction chain st).1 =
        Except.ok (Gemini.createFallbackWorkflow instruction parsedAtIso) := by
  intro chain
  induction chain with
  | nil => intro st _; rfl
  | cons m rest ih =>
    intro st h
    have hm := h m (by simp)
    have hrest : ∀ m' ∈ rest,
        Gemini.isModelTemporarilyBlocked st.modelFailures m' nowMs = true ∨
        (∃ msg, oracle m' = Gemini.ModelOutcome.throwErr msg) ∨
        (∃ t, oracle m' = Gemini.ModelOutcome.respond t ∧
          Gemini.parseAndValidateJSON jsParse t = none) :=
      fun m' hm' => h m' (List.mem_cons_of_mem m hm')
    simp only [Gemini.parseLoop]
    by_cases hb : Gemini.isModelTemporarilyBlocked st.modelFailures m nowMs = true
    · rw [if_pos hb]
      exact ih st hrest
    · rw [if_neg hb]
      rcases hm with hm | ⟨msg, hmsg⟩ | ⟨t, ht, hparse⟩
      · exact absurd hm hb
      · rw [show Gemini.tryModelParsing jsParse oracle m instruction parsedAtIso =
            Except.error (Gemini.wrapApiError m msg) by
          unfold Gemini.tryModelParsing
          rw [hmsg]]
        apply ih
        intro m' hm'
        rcases hrest m' hm' with hbl | hother | hother
        · exact Or.inl (isBlocked_record_mono st.modelFailures m m' nowMs _ hbl)
        · exact Or.inr (Or.inl hother)
        · exact Or.inr (Or.inr hother)
      · rw [show Gemini.tryModelParsing jsParse oracle m instruction parsedAtIso =
            Except.ok none by
          unfold Gemini.tryModelParsing
          rw [ht]
          dsimp only
          rw [hparse]]
        exact ih st hrest

/-- C6: `parseInstruction` never surfaces an error: for every JSON
decoder, every oracle outcome and every state there is a workflow `w`
with result `Except.ok w`; and when the cache misses and every model in
the chain is blocked, throws, or returns JSON that all three recovery
stages fail to parse, the result is exactly the regex fallback workflow,
which carries `fallbackUsed = true` and `modelUsed = "regex-fallback"`. -/
theorem c6_parse_never_errors (jsParse : String → Except String Gemini.RawWorkflow)
    (oracle : String → Gemini.ModelOutcome) (nowMs : ℤ)
    (parsedAtIso instruction : String) (st : Gemini.ParserState) :
    (∃ w, (Gemini.parseInstruction jsParse oracle nowMs parsedAtIso st instruction).1 =
      Except.ok w) ∧
    (Gemini.getCachedParsing st.workflowCache instruction = none →
      (∀ m ∈ Gemini.modelChain,
        Gemini.isModelTemporarilyBlocked st.modelFailures m nowMs = true ∨
        (∃ msg, oracle m = Gemini.ModelOutcome.throwErr msg) ∨
        (∃ t, oracle m = Gemini.ModelOutcome.respond t ∧
          Gemini.parseAndValidateJSON jsParse t = none)) →
      (Gemini.parseInstruction jsParse oracle nowMs parsedAtIso st instruction).1 =
        Except.ok (Gemini.createFallbackWorkflow instruction parsedAtIso) ∧
      (Gemini.createFallbackWorkflow instruction parsedAtIso).fallbackUsed = true ∧
      (Gemini.createFallbackWorkflow instruction parsedAtIso).modelUsed = "regex-fallback") := by
  constructor
  · unfold Gemini.parseInstruction
    cases hc : Gemini.getCachedParsing st.workflowCache instruction with
    | some w => exact ⟨w, rfl⟩
    | none => exact parseLoop_ok jsParse oracle nowMs parsedAtIso instruction Gemini.modelChain st
  · intro hmiss hall
    refine ⟨?_, rfl, rfl⟩
    unfold Gemini.parseInstruction
    rw [hmiss]
    exact parseLoop_all_fail jsParse oracle nowMs parsedAtIso instruction Gemini.modelChain st hall

/-- C6 witness: the all-fail conjunct at a concrete state with an
always-throwing oracle and an always-failing JSON decoder. -/
theorem c6_parse_never_errors_witness :
    (Gemini.parseInstruction (fun _ => Except.error ("bad json"))
        (fun _ => Gemini.ModelOutcome.throwErr ("quota exceeded")) 0 ("now")
        { workflowCache := [], modelFailures := [] } ("hello there")).1 =
      Except.ok (Gemini.createFallbackWorkflow ("hello there") ("now")) ∧
    (Gemini.createFallbackWorkflow ("hello there") ("now")).fallbackUsed = true ∧
    (Gemini.createFallbackWorkflow ("hello there") ("now")).modelUsed = "regex-fallback" :=
  (c6_parse_never_errors (fun _ => Except.error ("bad json"))
    (fun _ => Gemini.ModelOutcome.throwErr ("quota exceeded")) 0 ("now") ("hello there")
    { workflowCache := [], modelFailures := [] }).2 (by decide)
    (fun m _ => Or.inr (Or.inl ⟨("quota exceeded"), rfl⟩))

theorem createFallbackWorkflow_fallbackUsed (instruction parsedAtIso : String) :
    (Gemini.createFallbackWorkflow instruction parsedAtIso).fallbackUsed = true := rfl

theorem parseLoop_success_cached (jsParse : String → Except String Gemini.RawWorkflow)
    (oracle : String → Gemini.ModelOutcome) (nowMs : ℤ) (parsedAtIso instruction : String)
    (w : Gemini.Workflow) :
    ∀ (chain : List String) (st st' : Gemini.ParserState),
      st.workflowCache.length ≤ 50 →
      Gemini.parseLoop jsParse oracle nowMs parsedAtIso instruction chain st =
        (Except.ok w, st') →
      w.fallbackUsed = false →
      Gemini.getCachedParsing st'.workflowCache instruction = some w := by
  intro chain
  induction chain with
  | nil =>
    intro st st' hb hres hfb
    simp only [Gemini.parseLoop, Prod.mk.injEq] at hres
    obtain ⟨hw, _⟩ := hres
    have hw' : w = Gemini.createFallbackWorkflow instruction parsedAtIso := by
      injection hw with h'
      exact h'.symm
    rw [hw', createFallbackWorkflow_fallbackUsed] at hfb
    exact absurd hfb (by simp)
  | cons m rest ih =>
    intro st st' hb hres hfb
    simp only [Gemini.parseLoop] at hres
    by_cases hblk : Gemini.isModelTemporarilyBlocked st.modelFailures m nowMs = true
    · rw [if_pos hblk] at hres
      exact ih st st' hb hres hfb
    · rw [if_neg hblk] at hres
      cases htry : Gemini.tryModelParsing jsParse oracle m instruction parsedAtIso with
      | ok ow =>
        cases ow with
        | some w0 =>
          rw [htry] at hres
          simp only [Prod.mk.injEq] at hres
          obtain ⟨hw, hst⟩ := hres
          have hw' : w0 = w := by injection hw
          rw [← hst]
          dsimp only
          rw [← hw']
          exact cacheResult_get st.workflowCache instruction w0 hb
        | none =>
          rw [htry] at hres
          exact ih st st' hb hres hfb
      | error e =>
        rw [htry] at hres
        exact ih _ st' (by simpa using hb) hres hfb

theorem parseLoop_cache_bound (jsParse : String → Except String Gemini.RawWorkflow)
    (oracle : String → Gemini.ModelOutcome) (nowMs : ℤ) (parsedAtIso instruction : String) :
    ∀ (chain : List String) (st : Gemini.ParserState),
      st.workflowCache.length ≤ 50 →
      ((Gemini.parseLoop jsParse oracle nowMs parsedAtIso instruction chain st).2).workflowCache.length
        ≤ 50 := by
  intro chain
  induction chain with
  | nil => intro st hb; exact hb
  | cons m rest ih =>
    intro st hb
    simp only [Gemini.parseLoop]
    by_cases hblk : Gemini.isModelTemporarilyBlocked st.modelFailures m nowMs = true
    · rw [if_pos hblk]
      exact ih st hb
    · rw [if_neg hblk]
      cases htry : Gemini.tryModelParsing jsParse oracle m instruction parsedAtIso with
      | ok ow =>
        cases ow with
        | some w0 => exact cacheResult_length st.workflowCache instruction w0 hb
        | none => exact ih st hb
      | error e => exact ih _ (by simpa using hb)

/-- C7: the cache is keyed by the lower-cased trimmed instruction (two
instructions with equal normalizations read the same entry); a cache hit
returns the cached workflow immediately with the state untouched, for
every oracle — so no external call can influence the result; after a
non-fallback parse from a miss the normalized key maps to the returned
workflow, so a second parse of the same normalized instruction is such a
hit; the bounded insert `cacheResult` preserves the 50-entry bound and,
at exactly 50 entries and a fresh key, evicts exactly the
oldest-inserted entry (FIFO); and `parseInstruction` preserves the
50-entry bound. -/
theorem c7_cache_fifo_behavior :
    (∀ (jsParse : String → Except String Gemini.RawWorkflow)
        (oracle : String → Gemini.ModelOutcome) (nowMs : ℤ) (parsedAtIso : String)
        (st : Gemini.ParserState) (instruction : String) (w : Gemini.Workflow),
      Gemini.getCachedParsing st.workflowCache instruction = some w →
      Gemini.parseInstruction jsParse oracle nowMs parsedAtIso st instruction =
        (Except.ok w, st)) ∧
    (∀ (cache : List (String × Gemini.Workflow)) (i1 i2 : String),
      Gemini.normalizeKey i1 = Gemini.normalizeKey i2 →
      Gemini.getCachedParsing cache i1 = Gemini.getCachedParsing cache i2) ∧
    (∀ (jsParse : String → Except String Gemini.RawWorkflow)
        (oracle : String → Gemini.ModelOutcome) (nowMs : ℤ) (parsedAtIso : String)
        (st st' : Gemini.ParserState) (instruction : String) (w : Gemini.Workflow),
      st.workflowCache.length ≤ 50 →
      Gemini.parseInstruction jsParse oracle nowMs parsedAtIso st instruction =
        (Except.ok w, st') →
      w.fallbackUsed = false →
      Gemini.getCachedParsing st'.workflowCache instruction = some w) ∧
    (∀ (cache : List (String × Gemini.Workflow)) (instr : String) (w : Gemini.Workflow),
      cache.length ≤ 50 → (Gemini.cacheResult cache instr w).length ≤ 50) ∧
    (∀ (cache : List (String × Gemini.Workflow)) (instr : String) (w : Gemini.Workflow),
      cache.length = 50 → Gemini.normalizeKey instr ∉ cache.map Prod.fst →
      Gemini.cacheResult cache instr w = cache.tail ++ [(Gemini.normalizeKey instr, w)]) ∧
    (∀ (jsParse : String → Except String Gemini.RawWorkflow)
        (oracle : String → Gemini.ModelOutcome) (nowMs : ℤ) (parsedAtIso : String)
        (st : Gemini.ParserState) (instruction : String),
      st.workflowCache.length ≤ 50 →
      ((Gemini.parseInstruction jsParse oracle nowMs parsedAtIso st instruction).2).workflowCache.length
        ≤ 50) := by
  refine ⟨?_, ?_, ?_, cacheResult_length, cacheResult_evict, ?_⟩
  · intro jsParse oracle nowMs parsedAtIso st instruction w h
    unfold Gemini.parseInstruction
    rw [h]
  · intro cache i1 i2 h
    unfold Gemini.getCachedParsing
    rw [h]
  · intro jsParse oracle nowMs parsedAtIso st st' instruction w hb hres hfb
    unfold Gemini.parseInstruction at hres
    cases hc : Gemini.getCachedParsing st.workflowCache instruction with
    | some w0 =>
      rw [hc] at hres
      simp only [Prod.mk.injEq] at hres
      obtain ⟨hw, hst⟩ := hres
      have hw' : w0 = w := by injection hw
      rw [hw'] at hc
      rw [← hst]
      exact hc
    | none =>
      rw [hc] at hres
      exact parseLoop_success_cached jsParse oracle nowMs parsedAtIso instruction w
        Gemini.modelChain st st' hb hres hfb
  · intro jsParse oracle nowMs parsedAtIso st instruction hb
    unfold Gemini.parseInstruction
    cases hc : Gemini.getCachedParsing st.workflowCache instruction with
    | some w0 => exact hb
    | none =>
      exact parseLoop_cache_bound jsParse oracle nowMs parsedAtIso instruction
        Gemini.modelChain st hb

/-- C7 witness: a cache hit on the normalized key (`"HI "` normalizes to
`"hi"`) returns the cached workflow with the state untouched. -/
theorem c7_cache_fifo_behavior_witness :
    Gemini.parseInstruction (fun _ => Except.error ("e"))
        (fun _ => Gemini.ModelOutcome.throwErr ("e")) 0 ("t")
        { workflowCache := [(("hi"), Gemini.createFallbackWorkflow ("x") ("t"))]
          modelFailures := [] } ("HI ") =
      (Except.ok (Gemini.createFallbackWorkflow ("x") ("t")),
        { workflowCache := [(("hi"), Gemini.createFallbackWorkflow ("x") ("t"))]
          modelFailures := [] }) :=
  c7_cache_fifo_behavior.1 (fun _ => Except.error ("e"))
    (fun _ => Gemini.ModelOutcome.throwErr ("e")) 0 ("t")
    { workflowCache := [(("hi"), Gemini.createFallbackWorkflow ("x") ("t"))]
      modelFailures := [] } ("HI ") (Gemini.createFallbackWorkflow ("x") ("t")) (by decide)
